import Mathlib

/-!
Verification of the template-driven ETL pipeline
(`Alleyfoo/Data-frame-demo-ETL`) against its natural-language
specification.

The Python sources are shallowly embedded: pure functions become Lean
functions, pandas DataFrames become an explicit `Frame` structure of
column names and cell rows, exceptions become `Except`, and Python
floats used for ratio thresholds become `ℚ`.  Character-level Python
operations (`str.lower`, `str.isalnum`, `str.strip`) are modelled at
ASCII fidelity.
-/

namespace ETL

/-! ## Python character and string primitives -/

/-- ASCII model of Python's per-character `str.lower`: the 26 basic
latin capitals map to their lower-case forms, everything else is
unchanged. -/
def pyToLowerChar : Char → Char
  | 'A' => 'a'
  | 'B' => 'b'
  | 'C' => 'c'
  | 'D' => 'd'
  | 'E' => 'e'
  | 'F' => 'f'
  | 'G' => 'g'
  | 'H' => 'h'
  | 'I' => 'i'
  | 'J' => 'j'
  | 'K' => 'k'
  | 'L' => 'l'
  | 'M' => 'm'
  | 'N' => 'n'
  | 'O' => 'o'
  | 'P' => 'p'
  | 'Q' => 'q'
  | 'R' => 'r'
  | 'S' => 's'
  | 'T' => 't'
  | 'U' => 'u'
  | 'V' => 'v'
  | 'W' => 'w'
  | 'X' => 'x'
  | 'Y' => 'y'
  | 'Z' => 'z'
  | c => c

/-- The 26 lower-case latin letters (images of `pyToLowerChar` on
capitals). -/
def lowerLetters : List Char :=
  ['a', 'b', 'c', 'd', 'e', 'f', 'g', 'h', 'i', 'j', 'k', 'l', 'm',
   'n', 'o', 'p', 'q', 'r', 's', 't', 'u', 'v', 'w', 'x', 'y', 'z']

/-- Python `str.lower` on a whole string. -/
def pyLower (s : String) : String :=
  ⟨s.data.map pyToLowerChar⟩

/-- Python whitespace characters removed by bare `str.strip()`. -/
def pyIsSpace (c : Char) : Bool :=
  c == ' ' || c == '\t' || c == '\n' || c == '\r' || c == '\x0b' || c == '\x0c'

/-- Python bare `str.strip()`: drop leading and trailing whitespace. -/
def pyStrip (s : String) : String :=
  ⟨((s.data.dropWhile pyIsSpace).reverse.dropWhile pyIsSpace).reverse⟩

/-- `leadsWith needle hay`: `needle` is an initial segment of `hay`. -/
def leadsWith : List Char → List Char → Bool
  | [], _ => true
  | _ :: _, [] => false
  | a :: as, b :: bs => a == b && leadsWith as bs

/-- Python's substring test `needle in hay` (contiguous substring; the
empty string is a substring of everything). -/
def containsSeq (needle : List Char) : List Char → Bool
  | [] => leadsWith needle []
  | c :: t => leadsWith needle (c :: t) || containsSeq needle t

/-- Python `needle in hay` for `String`s. -/
def pyIn (needle hay : String) : Bool :=
  containsSeq needle.data hay.data

/-! ## `snake_case` (data-frame-tool-clean/src/core.py, lines 246-250)

```python
def snake_case(text: str) -> str:
    cleaned = "".join(ch if ch.isalnum() else "_" for ch in text)
    while "__" in cleaned:
        cleaned = cleaned.replace("__", "_")
    return cleaned.strip("_").lower()
```
-/

/-- One character of the `"".join(...)` comprehension: keep
alphanumerics, replace anything else by `'_'`. -/
def underscoreChar (c : Char) : Char :=
  if c.isAlphanum then c else '_'

/-- One pass of Python `cleaned.replace("__", "_")` (left-to-right,
non-overlapping). -/
def replaceDoubles : List Char → List Char
  | '_' :: '_' :: t => '_' :: replaceDoubles t
  | c :: t => c :: replaceDoubles t
  | [] => []

/-- Python `"__" in cleaned`: is there an adjacent pair of
underscores? -/
def hasDoubles : List Char → Bool
  | a :: b :: t => (a == '_' && b == '_') || hasDoubles (b :: t)
  | _ => false

theorem replaceDoubles_length_le (s : List Char) :
    (replaceDoubles s).length ≤ s.length := by
  induction s using replaceDoubles.induct with
  | case1 t ih => simp only [replaceDoubles, List.length_cons]; omega
  | case2 c t hne ih => simp only [replaceDoubles, List.length_cons]; omega
  | case3 => simp [replaceDoubles]

theorem replaceDoubles_length_lt :
    ∀ s, hasDoubles s = true → (replaceDoubles s).length < s.length := by
  intro s
  induction s using replaceDoubles.induct with
  | case1 t ih =>
    intro _
    have := replaceDoubles_length_le t
    simp only [replaceDoubles, List.length_cons]
    omega
  | case2 c t hne ih =>
    intro hdd
    have ht : hasDoubles t = true := by
      cases t with
      | nil => simp [hasDoubles] at hdd
      | cons d u =>
        simp only [hasDoubles, Bool.or_eq_true, Bool.and_eq_true, beq_iff_eq] at hdd
        rcases hdd with ⟨hc, hd⟩ | h
        · exact (hne u hc (by rw [hd])).elim
        · exact h
    have := ih ht
    simp only [replaceDoubles, List.length_cons]
    omega
  | case3 => intro h; simp [hasDoubles] at h

/-- The `while "__" in cleaned` loop body, with explicit fuel.  Each
pass strictly shrinks the list (`replaceDoubles_length_lt`), so
`s.length` steps of fuel always suffice
(`hasDoubles_collapseUnderscores` below). -/
def collapseFuel : Nat → List Char → List Char
  | 0, s => s
  | Nat.succ n, s => if hasDoubles s = true then collapseFuel n (replaceDoubles s) else s

/-- The full `while "__" in cleaned: cleaned = cleaned.replace("__", "_")`
loop. -/
def collapseUnderscores (s : List Char) : List Char :=
  collapseFuel s.length s

/-- Python `.strip("_")` from the front. -/
def trimStart (s : List Char) : List Char :=
  s.dropWhile (· == '_')

/-- Python `.strip("_")` from the back, written recursively. -/
def trimEnd : List Char → List Char
  | [] => []
  | c :: t =>
    match trimEnd t, c == '_' with
    | [], true => []
    | r, _ => c :: r

/-- `snake_case` from data-frame-tool-clean/src/core.py. -/
def snake_case (text : String) : String :=
  ⟨(trimEnd (trimStart (collapseUnderscores (text.data.map underscoreChar)))).map
    pyToLowerChar⟩

/-! ### Character-level lemmas for `snake_case` -/

theorem pyToLowerChar_cases (c : Char) :
    pyToLowerChar c = c ∨ pyToLowerChar c ∈ lowerLetters := by
  unfold pyToLowerChar
  split <;> simp [lowerLetters]

theorem mem_lowerLetters_fixed : ∀ c ∈ lowerLetters, pyToLowerChar c = c := by
  decide

theorem mem_lowerLetters_alnum : ∀ c ∈ lowerLetters, c.isAlphanum = true := by
  decide

theorem pyToLowerChar_idem (c : Char) :
    pyToLowerChar (pyToLowerChar c) = pyToLowerChar c := by
  rcases pyToLowerChar_cases c with h | h
  · rw [h, h]
  · exact mem_lowerLetters_fixed _ h

theorem pyToLowerChar_alnum {c : Char} (h : c.isAlphanum = true) :
    (pyToLowerChar c).isAlphanum = true := by
  rcases pyToLowerChar_cases c with hc | hc
  · rw [hc]; exact h
  · exact mem_lowerLetters_alnum _ hc

theorem alnum_ne_underscore {c : Char} (h : c.isAlphanum = true) : c ≠ '_' := by
  intro hc; subst hc; exact absurd h (by decide)

/-- Alphanumeric or underscore: the characters surviving the
`"".join(...)` pass of `snake_case`. -/
def CharOk (c : Char) : Prop := c.isAlphanum = true ∨ c = '_'

theorem underscoreChar_ok (c : Char) : CharOk (underscoreChar c) := by
  unfold underscoreChar CharOk
  by_cases h : c.isAlphanum = true <;> simp [h]

theorem underscoreChar_fixed {c : Char} (h : CharOk c) : underscoreChar c = c := by
  rcases h with h | h
  · simp [underscoreChar, h]
  · subst h; simp [underscoreChar]

theorem pyToLowerChar_ne_underscore {c : Char} (hok : CharOk c) (h : c ≠ '_') :
    pyToLowerChar c ≠ '_' := by
  rcases hok with ha | ha
  · exact alnum_ne_underscore (pyToLowerChar_alnum ha)
  · exact absurd ha h

/-! ### Structure lemmas for the `while`-loop and trimming -/

theorem mem_replaceDoubles {c : Char} : ∀ {s}, c ∈ replaceDoubles s → c ∈ s := by
  intro s
  induction s using replaceDoubles.induct with
  | case1 t ih =>
    intro h
    simp only [replaceDoubles, List.mem_cons] at h ⊢
    rcases h with h | h
    · exact Or.inl h
    · exact Or.inr (Or.inr (ih h))
  | case2 c t hne ih =>
    intro h
    simp only [replaceDoubles, List.mem_cons] at h ⊢
    rcases h with h | h
    · exact Or.inl h
    · exact Or.inr (ih h)
  | case3 => intro h; simp [replaceDoubles] at h

theorem mem_collapseFuel {c : Char} :
    ∀ (n : Nat) (s : List Char), c ∈ collapseFuel n s → c ∈ s := by
  intro n
  induction n with
  | zero => intro s h; exact h
  | succ n ih =>
    intro s h
    rw [collapseFuel] at h
    by_cases hd : hasDoubles s = true
    · rw [if_pos hd] at h
      exact mem_replaceDoubles (ih (replaceDoubles s) h)
    · rwa [if_neg hd] at h

theorem mem_collapseUnderscores {c : Char} {s : List Char}
    (h : c ∈ collapseUnderscores s) : c ∈ s :=
  mem_collapseFuel s.length s h

theorem hasDoubles_collapseFuel :
    ∀ (n : Nat) (s : List Char), s.length ≤ n →
      hasDoubles (collapseFuel n s) = false := by
  intro n
  induction n with
  | zero =>
    intro s hs
    have : s = [] := List.length_eq_zero.mp (Nat.le_zero.mp hs)
    subst this
    simp [collapseFuel, hasDoubles]
  | succ n ih =>
    intro s hs
    rw [collapseFuel]
    by_cases hd : hasDoubles s = true
    · rw [if_pos hd]
      have hlt := replaceDoubles_length_lt s hd
      exact ih (replaceDoubles s) (by omega)
    · rw [if_neg hd]
      simpa using hd

theorem hasDoubles_collapseUnderscores (s : List Char) :
    hasDoubles (collapseUnderscores s) = false :=
  hasDoubles_collapseFuel s.length s le_rfl

theorem collapseFuel_eq_self {s : List Char} (h : hasDoubles s = false) :
    ∀ n, collapseFuel n s = s := by
  intro n
  cases n with
  | zero => rfl
  | succ n => rw [collapseFuel, if_neg (by simp [h])]

theorem hasDoubles_cons_false {c : Char} {t : List Char}
    (h : hasDoubles (c :: t) = false) : hasDoubles t = false := by
  cases t with
  | nil => simp [hasDoubles]
  | cons d u =>
    simp only [hasDoubles, Bool.or_eq_false_iff] at h
    exact h.2

theorem mem_dropWhile {p : Char → Bool} {c : Char} :
    ∀ {s : List Char}, c ∈ s.dropWhile p → c ∈ s := by
  intro s
  induction s with
  | nil => intro h; simp [List.dropWhile] at h
  | cons a t ih =>
    intro h
    rw [List.dropWhile_cons] at h
    by_cases hp : p a = true
    · rw [if_pos hp] at h
      exact List.mem_cons_of_mem _ (ih h)
    · rw [if_neg hp] at h
      exact h

theorem hasDoubles_dropWhile {p : Char → Bool} :
    ∀ {s : List Char}, hasDoubles s = false → hasDoubles (s.dropWhile p) = false := by
  intro s
  induction s with
  | nil => intro _; simp [List.dropWhile, hasDoubles]
  | cons a t ih =>
    intro h
    rw [List.dropWhile_cons]
    by_cases hp : p a = true
    · rw [if_pos hp]
      exact ih (hasDoubles_cons_false h)
    · rwa [if_neg hp]

theorem head_dropWhile_not {p : Char → Bool} :
    ∀ {s : List Char} {c : Char}, (s.dropWhile p).head? = some c → p c = false := by
  intro s
  induction s with
  | nil => intro c h; simp [List.dropWhile] at h
  | cons a t ih =>
    intro c h
    rw [List.dropWhile_cons] at h
    by_cases hp : p a = true
    · rw [if_pos hp] at h
      exact ih h
    · rw [if_neg hp] at h
      simp only [List.head?_cons, Option.some.injEq] at h
      subst h
      simpa using hp

theorem trimEnd_cons (a : Char) (t : List Char) :
    trimEnd (a :: t) =
      if trimEnd t = [] ∧ a = '_' then [] else a :: trimEnd t := by
  rw [trimEnd]
  rcases hm : trimEnd t with _ | ⟨d, r⟩ <;> by_cases ha : a = '_' <;>
    simp [hm, ha]

theorem mem_trimEnd {c : Char} : ∀ {s : List Char}, c ∈ trimEnd s → c ∈ s := by
  intro s
  induction s with
  | nil => intro h; simp [trimEnd] at h
  | cons a t ih =>
    intro h
    rw [trimEnd_cons] at h
    by_cases hc : trimEnd t = [] ∧ a = '_'
    · rw [if_pos hc] at h
      simp at h
    · rw [if_neg hc] at h
      simp only [List.mem_cons] at h ⊢
      rcases h with h | h
      · exact Or.inl h
      · exact Or.inr (ih h)

theorem trimEnd_head {s : List Char} {d : Char} {r : List Char}
    (h : trimEnd s = d :: r) : ∃ t', s = d :: t' := by
  cases s with
  | nil => simp [trimEnd] at h
  | cons a t =>
    rw [trimEnd_cons] at h
    by_cases hc : trimEnd t = [] ∧ a = '_'
    · rw [if_pos hc] at h
      simp at h
    · rw [if_neg hc] at h
      simp only [List.cons.injEq] at h
      exact ⟨t, by rw [h.1]⟩

theorem trimEnd_getLast : ∀ {s : List Char}, (trimEnd s).getLast? ≠ some '_' := by
  intro s
  induction s with
  | nil => simp [trimEnd]
  | cons a t ih =>
    rw [trimEnd_cons]
    by_cases hc : trimEnd t = [] ∧ a = '_'
    · rw [if_pos hc]
      simp
    · rw [if_neg hc]
      rcases hm : trimEnd t with _ | ⟨e, r'⟩
      · have ha : ¬ a = '_' := fun hcon => hc ⟨hm, hcon⟩
        simp only [List.getLast?_singleton, ne_eq, Option.some.injEq]
        exact fun hcon => ha hcon
      · rw [List.getLast?_cons_cons]
        rw [hm] at ih
        exact ih

theorem hasDoubles_trimEnd :
    ∀ {s : List Char}, hasDoubles s = false → hasDoubles (trimEnd s) = false := by
  intro s
  induction s with
  | nil => intro _; simp [trimEnd, hasDoubles]
  | cons a t ih =>
    intro h
    have ht := ih (hasDoubles_cons_false h)
    rw [trimEnd_cons]
    by_cases hc : trimEnd t = [] ∧ a = '_'
    · rw [if_pos hc]
      simp [hasDoubles]
    · rw [if_neg hc]
      rcases hm : trimEnd t with _ | ⟨e, r'⟩
      · simp [hasDoubles]
      · rw [hm] at ht
        simp only [hasDoubles, Bool.or_eq_false_iff, Bool.and_eq_false_iff]
        refine ⟨?_, ht⟩
        by_cases ha : a = '_'
        · right
          obtain ⟨t', rfl⟩ := trimEnd_head hm
          subst ha
          simp only [hasDoubles, Bool.or_eq_false_iff, Bool.and_eq_false_iff] at h
          rcases h.1 with hx | hx
          · simp at hx
          · exact hx
        · left
          simpa using ha

theorem trimEnd_eq_self : ∀ {s : List Char}, s.getLast? ≠ some '_' → trimEnd s = s := by
  intro s
  induction s with
  | nil => intro _; simp [trimEnd]
  | cons a t ih =>
    intro h
    rw [trimEnd_cons]
    cases t with
    | nil =>
      have ha : ¬ a = '_' := by
        simpa using h
      simp [trimEnd, ha]
    | cons b u =>
      have ht : trimEnd (b :: u) = b :: u := by
        apply ih
        rwa [List.getLast?_cons_cons] at h
      rw [if_neg (by simp [ht]), ht]

theorem mapFixes {f : Char → Char} :
    ∀ {s : List Char}, (∀ c ∈ s, f c = c) → s.map f = s := by
  intro s
  induction s with
  | nil => intro _; simp
  | cons a t ih =>
    intro h
    simp only [List.map_cons, List.cons.injEq]
    exact ⟨h a (List.mem_cons_self a t), ih fun c hc => h c (List.mem_cons_of_mem _ hc)⟩

theorem hasDoubles_map_lower :
    ∀ {s : List Char}, (∀ c ∈ s, CharOk c) → hasDoubles s = false →
      hasDoubles (s.map pyToLowerChar) = false := by
  intro s
  induction s with
  | nil => intro _ _; simp [hasDoubles]
  | cons a t ih =>
    intro hok h
    cases t with
    | nil => simp [hasDoubles]
    | cons b u =>
      simp only [hasDoubles, Bool.or_eq_false_iff, Bool.and_eq_false_iff] at h
      have ih' := ih (fun c hc => hok c (List.mem_cons_of_mem _ hc)) h.2
      simp only [List.map_cons] at ih' ⊢
      simp only [hasDoubles, Bool.or_eq_false_iff, Bool.and_eq_false_iff]
      refine ⟨?_, ih'⟩
      rcases h.1 with hx | hx
      · left
        have ha : a ≠ '_' := by simpa using hx
        have : pyToLowerChar a ≠ '_' :=
          pyToLowerChar_ne_underscore (hok a (List.mem_cons_self _ _)) ha
        simpa using this
      · right
        have hb : b ≠ '_' := by simpa using hx
        have : pyToLowerChar b ≠ '_' :=
          pyToLowerChar_ne_underscore
            (hok b (List.mem_cons_of_mem _ (List.mem_cons_self _ _))) hb
        simpa using this

theorem getLast?_mem' : ∀ {l : List Char} {d : Char}, l.getLast? = some d → d ∈ l := by
  intro l
  induction l with
  | nil => intro d h; simp at h
  | cons a t ih =>
    intro d h
    cases t with
    | nil =>
      simp only [List.getLast?_singleton, Option.some.injEq] at h
      simp [h]
    | cons b u =>
      rw [List.getLast?_cons_cons] at h
      exact List.mem_cons_of_mem _ (ih h)

theorem getLast?_map' (f : Char → Char) :
    ∀ (l : List Char), (l.map f).getLast? = l.getLast?.map f := by
  intro l
  induction l with
  | nil => simp
  | cons a t ih =>
    cases t with
    | nil => simp
    | cons b u =>
      simp only [List.map_cons, List.getLast?_cons_cons] at ih ⊢
      exact ih

/-! ### `snake_case` idempotence -/

/-- Outputs of `snake_case`: alphanumeric-lower-fixed or underscore
characters, no adjacent underscores, no leading or trailing
underscore. -/
def GoodSnake (s : List Char) : Prop :=
  (∀ c ∈ s, (c.isAlphanum = true ∧ pyToLowerChar c = c) ∨ c = '_') ∧
    hasDoubles s = false ∧ s.head? ≠ some '_' ∧ s.getLast? ≠ some '_'

theorem snake_case_good (text : String) : GoodSnake (snake_case text).data := by
  unfold snake_case
  set u0 := text.data.map underscoreChar with hu0
  set u1 := collapseUnderscores u0 with hu1
  set u2 := trimStart u1 with hu2
  set u3 := trimEnd u2 with hu3
  have hok0 : ∀ c ∈ u0, CharOk c := by
    intro c hc
    rw [hu0] at hc
    obtain ⟨d, _, rfl⟩ := List.mem_map.mp hc
    exact underscoreChar_ok d
  have hok3 : ∀ c ∈ u3, CharOk c := fun c hc =>
    hok0 c (mem_collapseUnderscores (mem_dropWhile (mem_trimEnd hc)))
  refine ⟨?_, ?_, ?_, ?_⟩
  · intro c hc
    obtain ⟨d, hd, rfl⟩ := List.mem_map.mp hc
    rcases hok3 d hd with ha | ha
    · exact Or.inl ⟨pyToLowerChar_alnum ha, pyToLowerChar_idem d⟩
    · subst ha
      exact Or.inr (by decide)
  · exact hasDoubles_map_lower hok3
      (hasDoubles_trimEnd (hasDoubles_dropWhile (hasDoubles_collapseUnderscores u0)))
  · intro hcon
    rcases hu : u3 with _ | ⟨x, xs⟩
    · rw [hu] at hcon
      simp at hcon
    · rw [hu] at hcon
      simp only [List.map_cons, List.head?_cons, Option.some.injEq] at hcon
      have hx3 : x ∈ u3 := by rw [hu]; exact List.mem_cons_self _ _
      have hxne : x ≠ '_' := by
        have htr : trimEnd u2 = x :: xs := by rw [← hu3]; exact hu
        obtain ⟨t', ht'⟩ := trimEnd_head htr
        have hhead : u2.head? = some x := by rw [ht']; simp
        have hds : (u1.dropWhile (· == '_')).head? = some x := by
          rw [hu2] at hhead
          exact hhead
        have := head_dropWhile_not hds
        simpa using this
      exact pyToLowerChar_ne_underscore (hok3 x hx3) hxne hcon
  · rw [getLast?_map']
    intro hcon
    rcases hh : u3.getLast? with _ | d
    · rw [hh] at hcon
      simp at hcon
    · rw [hh] at hcon
      simp only [Option.map_some', Option.some.injEq] at hcon
      have hd3 : d ∈ u3 := getLast?_mem' hh
      have hdne : d ≠ '_' := by
        intro hd
        subst hd
        have : (trimEnd u2).getLast? = some '_' := by rw [← hu3]; exact hh
        exact trimEnd_getLast this
      exact pyToLowerChar_ne_underscore (hok3 d hd3) hdne hcon

theorem snake_case_fixed {t : List Char} (h : GoodSnake t) :
    snake_case ⟨t⟩ = ⟨t⟩ := by
  obtain ⟨hchars, hdd, hhead, hlast⟩ := h
  unfold snake_case
  have h0 : t.map underscoreChar = t := by
    apply mapFixes
    intro c hc
    rcases hchars c hc with ⟨ha, _⟩ | ha
    · exact underscoreChar_fixed (Or.inl ha)
    · exact underscoreChar_fixed (Or.inr ha)
  have h1 : collapseUnderscores t = t := collapseFuel_eq_self hdd t.length
  have h2 : trimStart t = t := by
    unfold trimStart
    cases t with
    | nil => simp
    | cons a u =>
      have ha : ¬ a = '_' := by
        intro hcon
        exact hhead (by simp [hcon])
      rw [List.dropWhile_cons, if_neg (by simpa using ha)]
  have h3 : trimEnd t = t := trimEnd_eq_self hlast
  have h4 : t.map pyToLowerChar = t := by
    apply mapFixes
    intro c hc
    rcases hchars c hc with ⟨_, hl⟩ | ha
    · exact hl
    · subst ha; decide
  simp only [String.data]
  rw [h0, h1, h2, h3, h4]

/-- The ASCII-model `snake_case` is idempotent.  This is a helper for
the amended C10 theorem below: the full Unicode `snake_case` is NOT
idempotent (see `snake_case_idempotent_counterexample`), but agrees
with the ASCII model on inputs without 'İ'. -/
theorem snake_case_idempotent (s : String) :
    snake_case (snake_case s) = snake_case s := by
  have hg := snake_case_good s
  have := snake_case_fixed hg
  cases hsc : snake_case s with
  | mk d =>
    rw [hsc] at this
    exact this

/-! ### C10 and Unicode: `str.isalnum` / `str.lower` beyond ASCII

Python's `str.isalnum` and `str.lower` are Unicode operations, and
`str.lower` can grow a string: LATIN CAPITAL LETTER I WITH DOT ABOVE
(U+0130, 'İ', alphanumeric) lowercases to the two-character sequence
`"i"` + COMBINING DOT ABOVE (U+0307), and U+0307 is a combining mark,
not alphanumeric.  The definitions below extend the ASCII model by
exactly this pair of characters; on ASCII strings they agree with the
ASCII model (`snake_caseU_eq_of_no_dotted`). -/

/-- Unicode `str.isalnum` on the characters of this development: the
ASCII alphanumerics plus 'İ' (U+0130, category Lu).  The combining
mark U+0307 produced by lowercasing 'İ' is not alphanumeric. -/
def pyIsAlnumU (c : Char) : Bool :=
  c.isAlphanum || c == 'İ'

/-- Unicode `str.lower` for one character, as a character-to-string
map: 'İ' lowers to `"i"` + U+0307; every other character maps through
the ASCII table. -/
def pyLowerCharU (c : Char) : List Char :=
  if c == 'İ' then ['i', '̇'] else [pyToLowerChar c]

/-- The `"".join(ch if ch.isalnum() else "_" ...)` comprehension with
Unicode `isalnum`. -/
def underscoreCharU (c : Char) : Char :=
  if pyIsAlnumU c then c else '_'

/-- `snake_case` from data-frame-tool-clean/src/core.py with the
Unicode character operations (`.lower()` runs last, after
`.strip("_")`, and may expand a character to two). -/
def snake_caseU (text : String) : String :=
  ⟨(trimEnd (trimStart (collapseUnderscores (text.data.map underscoreCharU)))).flatMap
    pyLowerCharU⟩

theorem flatMap_pyLowerCharU_eq (l : List Char) (h : ∀ c ∈ l, c ≠ 'İ') :
    l.flatMap pyLowerCharU = l.map pyToLowerChar := by
  induction l with
  | nil => rfl
  | cons a t ih =>
    have ha : (a == 'İ') = false := beq_eq_false_iff_ne.mpr (h a (List.mem_cons_self _ _))
    simp only [List.flatMap_cons, List.map_cons, pyLowerCharU, ha, Bool.false_eq_true,
      if_false]
    simp [ih (fun c hc => h c (List.mem_cons_of_mem _ hc))]

theorem snake_caseU_eq_of_no_dotted (s : String) (h : ∀ c ∈ s.data, c ≠ 'İ') :
    snake_caseU s = snake_case s := by
  unfold snake_caseU snake_case
  have h0 : s.data.map underscoreCharU = s.data.map underscoreChar := by
    apply List.map_congr_left
    intro c hc
    have hne : (c == 'İ') = false := beq_eq_false_iff_ne.mpr (h c hc)
    simp [underscoreCharU, underscoreChar, pyIsAlnumU, hne]
  rw [h0]
  refine congrArg _ ?_
  have hu3 : ∀ c ∈ trimEnd (trimStart (collapseUnderscores (s.data.map underscoreChar))),
      c ≠ 'İ' := by
    intro c hc
    have hmem : c ∈ s.data.map underscoreChar :=
      mem_collapseUnderscores (mem_dropWhile (mem_trimEnd hc))
    obtain ⟨d, hd, rfl⟩ := List.mem_map.mp hmem
    unfold underscoreChar
    by_cases hd2 : d.isAlphanum = true
    · rw [if_pos hd2]; exact h d hd
    · rw [if_neg hd2]; decide
  exact flatMap_pyLowerCharU_eq _ hu3

/-- **C10** counterexample: `snake_case` is NOT idempotent.  For the
input `"İ"` the first pass keeps the alphanumeric 'İ' and lowercases
it to `"i"` + U+0307; the second pass replaces the non-alphanumeric
combining mark by `'_'`, which `strip("_")` then removes, leaving
`"i"`. -/
theorem snake_case_idempotent_counterexample :
    ¬ (snake_caseU (snake_caseU "İ") = snake_caseU "İ") := by decide

/-- **C10** (amended): on ASCII input (every character below U+0080,
where `isalnum`/`lower` are the ASCII maps and lowering never grows
the string), `snake_case` is idempotent. -/
theorem snake_caseU_idempotent_ascii (s : String)
    (h : ∀ c ∈ s.data, c.toNat < 128) :
    snake_caseU (snake_caseU s) = snake_caseU s := by
  have hno : ∀ c ∈ s.data, c ≠ 'İ' := by
    intro c hc hcon
    subst hcon
    exact absurd (h _ hc) (by decide)
  rw [snake_caseU_eq_of_no_dotted s hno]
  have hg := snake_case_good s
  have hno2 : ∀ c ∈ (snake_case s).data, c ≠ 'İ' := by
    intro c hc
    rcases hg.1 c hc with ⟨ha, _⟩ | ha
    · intro hcon
      subst hcon
      exact absurd ha (by decide)
    · subst ha
      decide
  rw [snake_caseU_eq_of_no_dotted _ hno2]
  exact snake_case_idempotent s

/-- **C10** witness: ASCII idempotence applied at a concrete header. -/
theorem snake_caseU_idempotent_ascii_witness :
    (∀ c ∈ ("Hello  World!" : String).data, c.toNat < 128) ∧
      snake_caseU (snake_caseU "Hello  World!") = snake_caseU "Hello  World!" :=
  ⟨by decide, snake_caseU_idempotent_ascii _ (by decide)⟩

/-! ## DataFrame model

A pandas `DataFrame` is embedded as a list of column names plus a list
of rows; a cell is null (`NaN`/`None`), a string, or a number
(numbers are modelled as integers — none of the verified claims
depends on fractional values). -/

inductive PCell where
  | null : PCell
  | str : String → PCell
  | num : Int → PCell
deriving DecidableEq, Repr

/-- `pd.isna`-negation: is the cell non-null? -/
def PCell.notna : PCell → Bool
  | .null => false
  | _ => true

/-- Python `isinstance(val, str)`. -/
def PCell.isStr : PCell → Bool
  | .str _ => true
  | _ => false

structure Frame where
  cols : List String
  rows : List (List PCell)
deriving DecidableEq, Repr

/-- Every row has exactly one cell per column (true of every real
pandas frame). -/
def Frame.WF (df : Frame) : Prop := ∀ r ∈ df.rows, r.length = df.cols.length

/-! ## `guess_header_row`
(data-frame-tool-clean/src/services/header_detection.py, lines 16-26)

```python
def guess_header_row(df_preview: pd.DataFrame) -> int:
    for idx, (_, row) in enumerate(df_preview.iterrows()):
        non_null = row.dropna()
        if non_null.empty:
            continue
        str_ratio = sum(isinstance(val, str) for val in non_null) / len(non_null)
        width_ratio = len(non_null) / df_preview.shape[1] if df_preview.shape[1] else 0
        if str_ratio > 0.8 and width_ratio > 0.5:
            return idx
    return 0
```
-/

/-- The row loop of `guess_header_row`, with `idx` the running
enumeration counter. -/
def ghrAux (ncols : Nat) : Nat → List (List PCell) → Nat
  | _, [] => 0
  | idx, r :: rest =>
    let nonNull := r.filter PCell.notna
    if nonNull.isEmpty then ghrAux ncols (idx + 1) rest
    else
      if (8 : ℚ) / 10 < ((nonNull.filter PCell.isStr).length : ℚ) / (nonNull.length : ℚ) ∧
          (1 : ℚ) / 2 <
            (if ncols = 0 then 0 else (nonNull.length : ℚ) / (ncols : ℚ)) then
        idx
      else ghrAux ncols (idx + 1) rest

def guess_header_row (df : Frame) : Nat :=
  ghrAux df.cols.length 0 df.rows

/-- The row condition as the specification words it: the non-empty
cells are more than 80 % textual and their count exceeds half the
total column count.  (With no non-empty cells the string ratio is the
zero of division-by-zero, so the condition is false.) -/
def headerRowQual (ncols : Nat) (r : List PCell) : Bool :=
  let nonNull := r.filter PCell.notna
  decide ((8 : ℚ) / 10 < ((nonNull.filter PCell.isStr).length : ℚ) / (nonNull.length : ℚ) ∧
    (ncols : ℚ) / 2 < (nonNull.length : ℚ))

theorem width_iff {nn nc : Nat} (hnc : 0 < nc) :
    ((1 : ℚ) / 2 < (nn : ℚ) / (nc : ℚ)) ↔ ((nc : ℚ) / 2 < (nn : ℚ)) := by
  rw [div_lt_div_iff₀ (by norm_num) (by exact_mod_cast hnc),
    div_lt_iff₀ (by norm_num : (0 : ℚ) < 2)]
  constructor <;> intro h <;> linarith

theorem strRatio_pos_nonempty {l : List PCell}
    (h : (8 : ℚ) / 10 < ((l.filter PCell.isStr).length : ℚ) / (l.length : ℚ)) :
    l ≠ [] := by
  intro hl
  subst hl
  norm_num at h

theorem ghrAux_findIdx (ncols : Nat) :
    ∀ (rows : List (List PCell)) (idx : Nat), (∀ r ∈ rows, r.length = ncols) →
      ghrAux ncols idx rows =
        match rows.findIdx? (headerRowQual ncols) idx with
        | some i => i
        | none => 0 := by
  intro rows
  induction rows with
  | nil => intro idx _; rfl
  | cons r rest ih =>
    intro idx hwf
    have hr : r.length = ncols := hwf r (List.mem_cons_self _ _)
    have hrest : ∀ x ∈ rest, x.length = ncols := fun x hx =>
      hwf x (List.mem_cons_of_mem _ hx)
    rw [List.findIdx?_cons]
    by_cases hq : headerRowQual ncols r = true
    · -- claim-side condition holds: the code returns `idx` here too
      rw [if_pos hq]
      have hq' := (decide_eq_true_iff).mp hq
      obtain ⟨hstr, hwid⟩ := hq'
      have hne : r.filter PCell.notna ≠ [] := strRatio_pos_nonempty hstr
      have hnc : 0 < ncols := by
        rcases Nat.eq_zero_or_pos ncols with h0 | h0
        · exfalso
          have : r = [] := List.length_eq_zero.mp (hr.trans h0)
          subst this
          simp at hne
        · exact h0
      show ghrAux ncols idx (r :: rest) = idx
      rw [ghrAux]
      simp only [List.isEmpty_iff]
      rw [if_neg hne, if_pos]
      refine ⟨hstr, ?_⟩
      rw [if_neg (Nat.pos_iff_ne_zero.mp hnc)]
      exact (width_iff hnc).mpr hwid
    · -- claim-side condition fails: the code skips this row
      rw [if_neg hq]
      have hskip : ghrAux ncols idx (r :: rest) = ghrAux ncols (idx + 1) rest := by
        rw [ghrAux]
        simp only [List.isEmpty_iff]
        by_cases hne : r.filter PCell.notna = []
        · rw [if_pos hne]
        · rw [if_neg hne, if_neg]
          intro ⟨hstr, hwid⟩
          apply hq
          apply (decide_eq_true_iff).mpr
          refine ⟨hstr, ?_⟩
          have hnc : 0 < ncols := by
            rcases Nat.eq_zero_or_pos ncols with h0 | h0
            · exfalso
              have : r = [] := List.length_eq_zero.mp (hr.trans h0)
              subst this
              simp at hne
            · exact h0
          rw [if_neg (Nat.pos_iff_ne_zero.mp hnc)] at hwid
          exact (width_iff hnc).mp hwid
      rw [hskip]
      exact ih (idx + 1) hrest

/-- C6: `guess_header_row` returns the index of the first row whose
non-empty cells are more than 80 % textual and whose non-empty-cell
count exceeds half the column count, and 0 when no row qualifies
(`List.findIdx?` returns the first qualifying index, or `none`). -/
theorem guess_header_row_first_match (df : Frame) (hwf : df.WF) :
    guess_header_row df =
      match df.rows.findIdx? (headerRowQual df.cols.length) with
      | some i => i
      | none => 0 :=
  ghrAux_findIdx df.cols.length df.rows 0 hwf

/-- Witness for C6 at a concrete frame: the first qualifying row of
`[[1, null], ["x", "y"]]` under two columns is row 1. -/
theorem guess_header_row_first_match_witness :
    guess_header_row
        ⟨["a", "b"], [[PCell.num 1, PCell.null], [PCell.str "x", PCell.str "y"]]⟩ =
      match ([[PCell.num 1, PCell.null],
          [PCell.str "x", PCell.str "y"]].findIdx? (headerRowQual 2)) with
      | some i => i
      | none => 0 := by
  apply guess_header_row_first_match
  intro r hr
  simp only [List.mem_cons, List.not_mem_nil, or_false] at hr
  rcases hr with rfl | rfl <;> rfl

/-! ## Template model
(data-frame-tool-clean/src/templates.py, `@dataclass Template` and
`HeaderCell`).  `str | int` payload values become `SIV`; Python dicts
become insertion-ordered association lists; `Optional[float]` becomes
`Option ℚ`. -/

/-- A JSON/YAML scalar that is either a string or an integer
(`sheet: str | int`). -/
inductive SIV where
  | s : String → SIV
  | i : Int → SIV
deriving DecidableEq, Repr

structure HeaderCell where
  name : String
  column : Int
  row : Int
  aliasName : Option String
deriving DecidableEq, Repr

structure Template where
  sheet : Option SIV
  sheets : List SIV
  header_row : Int
  columns : List String
  column_mappings : List (String × String)
  headers : List HeaderCell
  skiprows : List Int
  delimiter : String
  encoding : String
  source_type : String
  source_file : Option String
  output_dir : Option String
  provider_name : Option String
  combine_sheets : Bool
  combine_on : List String
  connection_name : Option String
  sql_table : Option String
  sql_query : Option String
  trim_strings : Bool
  drop_empty_rows : Bool
  drop_null_columns_threshold : Option ℚ
  dedupe_on : List String
  strip_thousands : Bool
  unpivot : Bool
  id_columns : List String
  var_name : String
  value_name : String
  required_fields : List String
  field_types : List (String × String)
  template_version : Int
deriving DecidableEq, Repr

/-- A template with the Python dataclass defaults for every field
except `sheet`. -/
def Template.withDefaults (sheet : Option SIV) : Template :=
  { sheet := sheet
    sheets := []
    header_row := 0
    columns := []
    column_mappings := []
    headers := []
    skiprows := []
    delimiter := ","
    encoding := "utf-8"
    source_type := "excel"
    source_file := none
    output_dir := none
    provider_name := none
    combine_sheets := false
    combine_on := []
    connection_name := none
    sql_table := none
    sql_query := none
    trim_strings := true
    drop_empty_rows := false
    drop_null_columns_threshold := none
    dedupe_on := []
    strip_thousands := false
    unpivot := false
    id_columns := []
    var_name := "report_date"
    value_name := "sales_amount"
    required_fields := []
    field_types := []
    template_version := 3 }

/-! ## Frame access helpers -/

/-- `r[c]` for a row aligned with `cols`: the cell under the first
column named `c` (null when the column is absent — real pandas would
raise, but every verified use guards membership first). -/
def cellAt (cols : List String) (r : List PCell) (c : String) : PCell :=
  match cols.findIdx? (· == c) with
  | some i => r.getD i PCell.null
  | none => PCell.null

/-- `df[c]` as a list of cells (one per row). -/
def Frame.colVals (df : Frame) (c : String) : List PCell :=
  df.rows.map (fun r => cellAt df.cols r c)

/-- `df[cs]`: column projection, in the order of `cs`. -/
def Frame.selectCols (df : Frame) (cs : List String) : Frame :=
  ⟨cs, df.rows.map (fun r => cs.map (cellAt df.cols r))⟩

/-! ## Unpivot (`DataEngine.transform_data`, engine.py lines 144-158)

```python
if template.unpivot:
    id_vars = list(template.column_mappings.values())
    available_ids = [c for c in id_vars if c in df.columns]
    if not available_ids:
        logging.warning(...)
    else:
        df = df.melt(id_vars=available_ids, var_name=template.var_name,
                     value_name=template.value_name)
```
-/

/-- `pandas.DataFrame.melt`: keep `ids`, stack every other column into
`(varName, valName)` pairs.  Output rows are grouped by value column,
as pandas produces them. -/
def Frame.melt (df : Frame) (ids : List String) (varName valName : String) : Frame :=
  let valueCols := df.cols.filter (fun c => !(ids.contains c))
  { cols := ids ++ [varName, valName]
    rows := (valueCols.map (fun v =>
      df.rows.map (fun r =>
        (ids.map (cellAt df.cols r)) ++ [PCell.str v, cellAt df.cols r v]))).flatten }

/-- The unpivot block of `DataEngine.transform_data`. -/
def unpivotStep (df : Frame) (t : Template) : Frame :=
  if t.unpivot then
    let id_vars := t.column_mappings.map Prod.snd
    let available_ids := id_vars.filter (fun c => df.cols.contains c)
    if available_ids.isEmpty then df
    else df.melt available_ids t.var_name t.value_name
  else df

theorem length_join_const {α β : Type} (f : α → List β) (l : List α) (n : Nat)
    (h : ∀ a ∈ l, (f a).length = n) : ((l.map f).flatten).length = l.length * n := by
  induction l with
  | nil => simp
  | cons a t ih =>
    simp only [List.map_cons, List.flatten_cons, List.length_append, List.length_cons]
    rw [h a (List.mem_cons_self _ _), ih fun x hx => h x (List.mem_cons_of_mem _ hx)]
    ring

/-- C1: with unpivot enabled and exactly one identifier column present
in the table, the melt step yields exactly 3 columns and `R × N` rows
where `R` is the input row count and `N` the number of non-identifier
columns. -/
theorem unpivot_melt_shape (df : Frame) (t : Template) (c : String)
    (hu : t.unpivot = true)
    (hav : (t.column_mappings.map Prod.snd).filter (fun x => df.cols.contains x) = [c]) :
    (unpivotStep df t).cols.length = 3 ∧
      (unpivotStep df t).rows.length =
        df.rows.length * (df.cols.filter (fun x => x ≠ c)).length := by
  unfold unpivotStep
  rw [if_pos hu]
  simp only [hav, List.isEmpty_cons]
  rw [if_neg (by simp)]
  unfold Frame.melt
  constructor
  · simp
  · simp only
    have hvc : df.cols.filter (fun x => !([c].contains x)) =
        df.cols.filter (fun x => x ≠ c) := by
      apply List.filter_congr
      intro x _
      simp
    rw [length_join_const _ _ df.rows.length (fun a _ => by simp)]
    rw [hvc]
    ring

/-- Witness for C1: columns `[SKU, Jan, Feb]` with identifier `SKU`
and two data rows melt to 3 columns and 4 rows. -/
theorem unpivot_melt_shape_witness :
    (unpivotStep
        ⟨["SKU", "Jan", "Feb"],
         [[PCell.str "a", PCell.num 1, PCell.num 2],
          [PCell.str "b", PCell.num 3, PCell.num 4]]⟩
        { Template.withDefaults none with
            unpivot := true
            column_mappings := [("SKU", "SKU")]
            var_name := "period"
            value_name := "amount" }).cols.length = 3 ∧
      (unpivotStep
          ⟨["SKU", "Jan", "Feb"],
           [[PCell.str "a", PCell.num 1, PCell.num 2],
            [PCell.str "b", PCell.num 3, PCell.num 4]]⟩
          { Template.withDefaults none with
              unpivot := true
              column_mappings := [("SKU", "SKU")]
              var_name := "period"
              value_name := "amount" }).rows.length =
        2 * (["SKU", "Jan", "Feb"].filter (fun x => x ≠ "SKU")).length := by
  exact unpivot_melt_shape _ _ "SKU" rfl (by decide)

/-! ## Sparse-column dropping (`DataEngine.transform_data`,
engine.py lines 168-176)

```python
if template.drop_null_columns_threshold is not None:
    frac = template.drop_null_columns_threshold
    keep_cols: list[str] = []
    for col in df.columns:
        if df[col].size == 0:
            continue
        if df[col].notna().mean() >= frac:
            keep_cols.append(col)
    df = df[keep_cols] if keep_cols else df
```
-/

/-- `df[col].notna().mean()` (0 for an empty column, by ℚ's
division-by-zero convention — the code never consults it then). -/
def notnaMean (df : Frame) (c : String) : ℚ :=
  (((df.colVals c).filter PCell.notna).length : ℚ) / ((df.colVals c).length : ℚ)

/-- The sparse-column-drop block of `DataEngine.transform_data`. -/
def dropNullColsStep (df : Frame) (t : Template) : Frame :=
  match t.drop_null_columns_threshold with
  | none => df
  | some frac =>
    let keep_cols := df.cols.filter (fun c =>
      decide ((df.colVals c).length ≠ 0 ∧ frac ≤ notnaMean df c))
    if keep_cols.isEmpty then df else df.selectCols keep_cols

/-- Shared evaluation helper: when the filter keeps nothing, the
sparse-column drop leaves the frame whole. -/
theorem dropNullColsStep_eq_of_no_keep (df : Frame) (t : Template) (frac : ℚ)
    (ht : t.drop_null_columns_threshold = some frac)
    (h : ∀ c ∈ df.cols, ¬ ((df.colVals c).length ≠ 0 ∧ frac ≤ notnaMean df c)) :
    dropNullColsStep df t = df := by
  unfold dropNullColsStep
  rw [ht]
  simp only
  have hfil : df.cols.filter (fun c =>
      decide ((df.colVals c).length ≠ 0 ∧ frac ≤ notnaMean df c)) = [] := by
    apply List.filter_eq_nil_iff.mpr
    intro c hc
    simpa using h c hc
  rw [hfil]
  rfl

/-- C7 counterexample: with threshold 1/2 and a single all-null column
on a one-row table, the column is below the threshold yet is NOT
dropped (the code keeps the frame whole when no column qualifies). -/
theorem drop_null_columns_counterexample :
    notnaMean ⟨["a"], [[PCell.null]]⟩ "a" <
        (1 : ℚ) / 2 ∧
      ¬ ("a" ∉ (dropNullColsStep ⟨["a"], [[PCell.null]]⟩
          { Template.withDefaults none with
              drop_null_columns_threshold := some ((1 : ℚ) / 2) }).cols) := by
  have hmean : notnaMean ⟨["a"], [[PCell.null]]⟩ "a" = 0 := by
    simp [notnaMean, Frame.colVals, cellAt, PCell.notna]
  constructor
  · rw [hmean]
    norm_num
  · intro hnot
    apply hnot
    have hstep : dropNullColsStep ⟨["a"], [[PCell.null]]⟩
        { Template.withDefaults none with
            drop_null_columns_threshold := some ((1 : ℚ) / 2) } =
        ⟨["a"], [[PCell.null]]⟩ := by
      apply dropNullColsStep_eq_of_no_keep _ _ ((1 : ℚ) / 2) rfl
      intro c hc
      have : c = "a" := by simpa using hc
      subst this
      intro ⟨_, hle⟩
      rw [hmean] at hle
      norm_num at hle
    rw [hstep]
    simp

/-- C7 as amended: when a threshold is set, a zero-row table is left
unchanged; and whenever at least one column meets the threshold (and
the table has rows), exactly the columns whose non-null fraction
reaches the threshold are kept, in order, and the rest are dropped.
(When no column meets the threshold the code leaves the table
unchanged — the counterexample above.) -/
theorem drop_null_columns_spec (df : Frame) (t : Template) (frac : ℚ)
    (ht : t.drop_null_columns_threshold = some frac) :
    (df.rows = [] → dropNullColsStep df t = df) ∧
      (df.rows ≠ [] → (∃ c ∈ df.cols, frac ≤ notnaMean df c) →
        dropNullColsStep df t =
          df.selectCols (df.cols.filter (fun c => decide (frac ≤ notnaMean df c)))) := by
  constructor
  · intro hz
    unfold dropNullColsStep
    rw [ht]
    simp only
    have : df.cols.filter (fun c =>
        decide ((df.colVals c).length ≠ 0 ∧ frac ≤ notnaMean df c)) = [] := by
      apply List.filter_eq_nil_iff.mpr
      intro c _
      simp only [decide_eq_true_eq, not_and]
      intro hlen
      exfalso
      apply hlen
      unfold Frame.colVals
      rw [hz]
      rfl
    rw [this]
    rfl
  · intro hnz ⟨c0, hc0, hm0⟩
    unfold dropNullColsStep
    rw [ht]
    simp only
    have hlen : ∀ c, (df.colVals c).length ≠ 0 := by
      intro c
      unfold Frame.colVals
      simp only [List.length_map, ne_eq, List.length_eq_zero]
      exact hnz
    have hfeq : df.cols.filter (fun c =>
        decide ((df.colVals c).length ≠ 0 ∧ frac ≤ notnaMean df c)) =
        df.cols.filter (fun c => decide (frac ≤ notnaMean df c)) := by
      apply List.filter_congr
      intro x _
      simp only [decide_eq_true_eq, decide_eq_decide]
      constructor
      · exact fun h => h.2
      · exact fun h => ⟨hlen x, h⟩
    rw [hfeq]
    rw [if_neg]
    simp only [List.isEmpty_iff, ne_eq, List.filter_eq_nil_iff]
    intro hcon
    exact hcon c0 hc0 (by simpa using hm0)

/-- Witness for the amended C7 on `[["a" ↦ 1, "b" ↦ null]]` with
threshold 1/2: column `a` (fraction 1) is kept, column `b`
(fraction 0) is dropped. -/
theorem drop_null_columns_spec_witness :
    dropNullColsStep ⟨["a", "b"], [[PCell.num 1, PCell.null]]⟩
        { Template.withDefaults none with
            drop_null_columns_threshold := some ((1 : ℚ) / 2) } =
      Frame.selectCols ⟨["a", "b"], [[PCell.num 1, PCell.null]]⟩
        (["a", "b"].filter (fun c =>
          decide ((1 : ℚ) / 2 ≤ notnaMean ⟨["a", "b"], [[PCell.num 1, PCell.null]]⟩ c))) :=
  (drop_null_columns_spec _ _ _ rfl).2 (by simp)
    ⟨"a", by simp, by
      have : notnaMean ⟨["a", "b"], [[PCell.num 1, PCell.null]]⟩ "a" = 1 := by
        simp [notnaMean, Frame.colVals, cellAt, PCell.notna]
      rw [this]
      norm_num⟩

/-! ## `combine_on` aggregation (`DataEngine.transform_data`,
engine.py lines 199-221)

```python
if template.combine_on:
    keys = [k for k in template.combine_on if k in df.columns]
    if not keys:
        logging.warning(...)
    else:
        group_cols: list[str] = list(keys)
        if template.unpivot and template.var_name in df.columns:
            group_cols.append(template.var_name)
        if "provider_id" in df.columns and "provider_id" not in group_cols:
            group_cols.append("provider_id")
        numeric_cols = [col for col in df.columns
                        if col not in group_cols and pd.api.types.is_numeric_dtype(df[col])]
        if numeric_cols:
            df = df.groupby(group_cols, as_index=False)[numeric_cols].sum(min_count=1).copy()
```

`pd.api.types.is_numeric_dtype` consults column dtype metadata that a
value-level frame does not carry, so it enters the embedding as an
oracle parameter `nd`.  `groupby(...).sum(min_count=1)` is modelled
with groups in first-occurrence order (pandas sorts group keys; no
verified claim depends on group order) and with pandas' default
`dropna=True` discarding rows whose key tuple contains a null. -/

def PCell.toNum : PCell → Option Int
  | .num n => some n
  | _ => none

/-- `sum(min_count=1)` over one group and column: null when every
value is null, otherwise the sum of the (numeric) non-null values. -/
def aggSum (vals : List PCell) : PCell :=
  if (vals.filter PCell.notna).isEmpty then PCell.null
  else PCell.num ((vals.filterMap PCell.toNum).sum)

/-- The tuple of group-key cells of one row. -/
def keyOf (cols gcols : List String) (r : List PCell) : List PCell :=
  gcols.map (cellAt cols r)

/-- First-occurrence deduplication of key tuples. -/
def dedupFirstAux (seen : List (List PCell)) : List (List PCell) → List (List PCell)
  | [] => []
  | k :: rest =>
    if seen.contains k then dedupFirstAux seen rest
    else k :: dedupFirstAux (k :: seen) rest

def dedupFirst (l : List (List PCell)) : List (List PCell) :=
  dedupFirstAux [] l

/-- The group keys of `df.groupby(gcols)`: distinct fully-non-null key
tuples. -/
def groupKeysOf (df : Frame) (gcols : List String) : List (List PCell) :=
  dedupFirst ((df.rows.map (keyOf df.cols gcols)).filter (fun k => k.all PCell.notna))

/-- `df.groupby(group_cols, as_index=False)[numeric_cols].sum(min_count=1)`. -/
def Frame.groupbySum (df : Frame) (gcols ncols : List String) : Frame :=
  { cols := gcols ++ ncols
    rows := (groupKeysOf df gcols).map (fun k =>
      k ++ ncols.map (fun c =>
        aggSum ((df.rows.filter (fun r => keyOf df.cols gcols r == k)).map
          (fun r => cellAt df.cols r c)))) }

/-- `keys = [k for k in template.combine_on if k in df.columns]`. -/
def combineKeys (df : Frame) (t : Template) : List String :=
  t.combine_on.filter (fun k => df.cols.contains k)

/-- `group_cols` after the two conditional appends. -/
def combineGroupCols (df : Frame) (t : Template) : List String :=
  let keys := combineKeys df t
  let gc1 := if t.unpivot && df.cols.contains t.var_name then keys ++ [t.var_name] else keys
  if df.cols.contains "provider_id" && !(gc1.contains "provider_id") then
    gc1 ++ ["provider_id"]
  else gc1

/-- `numeric_cols`: non-group columns of numeric dtype. -/
def combineNumericCols (df : Frame) (t : Template) (nd : String → Bool) : List String :=
  df.cols.filter (fun c => !((combineGroupCols df t).contains c) && nd c)

/-- The `combine_on` block of `DataEngine.transform_data`. -/
def combineStep (df : Frame) (t : Template) (nd : String → Bool) : Frame :=
  if t.combine_on.isEmpty then df
  else if (combineKeys df t).isEmpty then df
  else if (combineNumericCols df t nd).isEmpty then df
  else df.groupbySum (combineGroupCols df t) (combineNumericCols df t nd)

theorem aggSum_all_null {vals : List PCell} (h : ∀ v ∈ vals, v = PCell.null) :
    aggSum vals = PCell.null := by
  unfold aggSum
  rw [if_pos]
  simp only [List.isEmpty_iff, List.filter_eq_nil_iff]
  intro v hv
  rw [h v hv]
  simp [PCell.notna]

theorem aggSum_of_exists_notna {vals : List PCell}
    (h : ∃ v ∈ vals, PCell.notna v = true) :
    aggSum vals = PCell.num ((vals.filterMap PCell.toNum).sum) := by
  unfold aggSum
  rw [if_neg]
  simp only [List.isEmpty_iff, List.filter_eq_nil_iff]
  intro hcon
  obtain ⟨v, hv, hn⟩ := h
  exact absurd hn (by simpa using hcon v hv)

theorem mem_dedupFirstAux {x : List PCell} :
    ∀ (seen l : List (List PCell)), x ∈ dedupFirstAux seen l → x ∈ l := by
  intro seen l
  induction l generalizing seen with
  | nil => intro h; simp [dedupFirstAux] at h
  | cons k rest ih =>
    intro h
    rw [dedupFirstAux] at h
    by_cases hk : seen.contains k = true
    · rw [if_pos hk] at h
      exact List.mem_cons_of_mem _ (ih seen h)
    · rw [if_neg hk] at h
      rcases List.mem_cons.mp h with h1 | h1
      · exact h1 ▸ List.mem_cons_self _ _
      · exact List.mem_cons_of_mem _ (ih (k :: seen) h1)

theorem groupKeysOf_length {df : Frame} {gcols : List String} {k : List PCell}
    (h : k ∈ groupKeysOf df gcols) : k.length = gcols.length := by
  have h1 := mem_dedupFirstAux _ _ h
  have h2 := List.mem_of_mem_filter h1
  obtain ⟨r, _, rfl⟩ := List.mem_map.mp h2
  simp [keyOf]

theorem cellAt_append_right (g n : List String) (k vs : List PCell) (c : String)
    (hg : ∀ a ∈ g, (a == c) = false) (hlen : k.length = g.length) :
    cellAt (g ++ n) (k ++ vs) c = cellAt n vs c := by
  induction g generalizing k with
  | nil =>
    have : k = [] := List.length_eq_zero.mp (by simpa using hlen)
    subst this
    simp
  | cons a g2 ih =>
    cases k with
    | nil => simp at hlen
    | cons b k2 =>
      have ha : (a == c) = false := hg a (List.mem_cons_self _ _)
      have hg2 : ∀ x ∈ g2, (x == c) = false := fun x hx =>
        hg x (List.mem_cons_of_mem _ hx)
      have hlen2 : k2.length = g2.length := by simpa using hlen
      have ih2 := ih k2 hg2 hlen2
      unfold cellAt at ih2 ⊢
      simp only [List.cons_append, List.findIdx?_cons, ha, Bool.false_eq_true,
        if_false, List.findIdx?_succ]
      cases hfi : List.findIdx? (fun x => x == c) (g2 ++ n) with
      | none =>
        rw [hfi] at ih2
        simpa using ih2
      | some j =>
        rw [hfi] at ih2
        simpa using ih2

theorem cellAt_map_self {c : String} :
    ∀ {n : List String} (f : String → PCell), c ∈ n → cellAt n (n.map f) c = f c := by
  intro n
  induction n with
  | nil => intro f h; simp at h
  | cons a n2 ih =>
    intro f h
    by_cases hac : (a == c) = true
    · have : a = c := by simpa using hac
      subst this
      unfold cellAt
      rw [List.findIdx?_cons, if_pos hac]
      simp
    · have hmem : c ∈ n2 := by
        rcases List.mem_cons.mp h with h1 | h1
        · exact absurd (by simp [h1]) hac
        · exact h1
      have ih2 := ih f hmem
      unfold cellAt at ih2 ⊢
      rw [List.findIdx?_cons, if_neg (by simpa using hac), List.findIdx?_succ]
      cases hfi : List.findIdx? (fun x => x == c) n2 with
      | none =>
        exfalso
        have hnone := List.findIdx?_eq_none_iff.mp hfi
        have := hnone c hmem
        simp at this
      | some j =>
        rw [hfi] at ih2
        simp only [Option.map_some, List.map_cons, List.getD_cons_succ]
        exact ih2

/-- C2: whenever the `combine_on` aggregation actually runs, then for
every group (the `i`-th group key) and every aggregated numeric column
`c`, the output cell is null when all of the column's values in the
group are null, and is the sum of the non-null (numeric) values when
at least one is non-null. -/
theorem combine_on_group_sums (df : Frame) (t : Template) (nd : String → Bool)
    (hco : t.combine_on ≠ [])
    (hkeys : combineKeys df t ≠ [])
    (hnum : combineNumericCols df t nd ≠ [])
    (i : Nat) (hi : i < (groupKeysOf df (combineGroupCols df t)).length)
    (c : String) (hc : c ∈ combineNumericCols df t nd) :
    ((∀ v ∈ (df.rows.filter (fun r =>
          keyOf df.cols (combineGroupCols df t) r ==
            (groupKeysOf df (combineGroupCols df t)).getD i [])).map
          (fun r => cellAt df.cols r c), v = PCell.null) →
        cellAt (combineStep df t nd).cols ((combineStep df t nd).rows.getD i []) c =
          PCell.null) ∧
      ((∃ v ∈ (df.rows.filter (fun r =>
            keyOf df.cols (combineGroupCols df t) r ==
              (groupKeysOf df (combineGroupCols df t)).getD i [])).map
            (fun r => cellAt df.cols r c), PCell.notna v = true) →
        cellAt (combineStep df t nd).cols ((combineStep df t nd).rows.getD i []) c =
          PCell.num (((df.rows.filter (fun r =>
            keyOf df.cols (combineGroupCols df t) r ==
              (groupKeysOf df (combineGroupCols df t)).getD i [])).map
            (fun r => cellAt df.cols r c)).filterMap PCell.toNum).sum) := by
  have hstep : combineStep df t nd =
      df.groupbySum (combineGroupCols df t) (combineNumericCols df t nd) := by
    unfold combineStep
    rw [if_neg (by simpa using hco), if_neg (by simpa using hkeys),
      if_neg (by simpa using hnum)]
  set gcols := combineGroupCols df t with hgc
  set ncols := combineNumericCols df t nd with hnc
  set keys := groupKeysOf df gcols with hks
  set k := keys.getD i [] with hk
  have hkmem : k ∈ keys := by
    rw [hk, List.getD_eq_getElem _ _ hi]
    exact List.getElem_mem _
  have hklen : k.length = gcols.length := groupKeysOf_length hkmem
  have hcell : cellAt (combineStep df t nd).cols ((combineStep df t nd).rows.getD i []) c =
      aggSum ((df.rows.filter (fun r => keyOf df.cols gcols r == k)).map
        (fun r => cellAt df.cols r c)) := by
    rw [hstep]
    unfold Frame.groupbySum
    simp only
    have hrow : ((keys.map (fun k =>
        k ++ ncols.map (fun c =>
          aggSum ((df.rows.filter (fun r => keyOf df.cols gcols r == k)).map
            (fun r => cellAt df.cols r c))))).getD i []) =
        k ++ ncols.map (fun c =>
          aggSum ((df.rows.filter (fun r => keyOf df.cols gcols r == k)).map
            (fun r => cellAt df.cols r c))) := by
      rw [List.getD_eq_getElem _ _ (by simpa using hi), List.getElem_map]
      rw [hk, List.getD_eq_getElem _ _ hi]
    rw [hrow]
    have hcnotg : ∀ a ∈ gcols, (a == c) = false := by
      intro a ha
      have hcf := List.of_mem_filter (hnc ▸ hc)
      simp only [Bool.and_eq_true, Bool.not_eq_true'] at hcf
      by_cases hac : a = c
      · subst hac
        exfalso
        have hmm : gcols.contains a = true := List.elem_eq_true_of_mem ha
        rw [← hgc] at hcf
        rw [hmm] at hcf
        simp at hcf
      · simpa using hac
    rw [cellAt_append_right gcols ncols k _ c hcnotg hklen]
    exact cellAt_map_self _ (hnc ▸ hc)
  constructor
  · intro hall
    rw [hcell]
    exact aggSum_all_null hall
  · intro hex
    rw [hcell]
    exact aggSum_of_exists_notna hex

/-- Concrete inputs for the C2 witness: two rows in group `"g"`, both
null in the numeric column `"v"`. -/
def dfC2 : Frame :=
  ⟨["k", "v"], [[PCell.str "g", PCell.null], [PCell.str "g", PCell.null]]⟩

def tC2 : Template := { Template.withDefaults none with combine_on := ["k"] }

def ndC2 : String → Bool := fun c => c == "v"

/-- Witness for C2: the all-null group aggregates to null (not zero). -/
theorem combine_on_group_sums_witness :
    cellAt (combineStep dfC2 tC2 ndC2).cols
        ((combineStep dfC2 tC2 ndC2).rows.getD 0 []) "v" = PCell.null := by
  have h := combine_on_group_sums dfC2 tC2 ndC2 (by decide) (by decide) (by decide)
    0 (by decide) "v" (by decide)
  exact h.1 (by decide)

/-! ## Contract validation (`validate` and `_coerce_field_types`,
engine.py lines 18-80)

`pd.to_datetime(..., errors="coerce")`, `pd.to_numeric(...)` and the
`Int64` cast are pandas library calls; they enter the embedding as
per-cell oracle parameters `pdDT`, `pdInt`, `pdNum`.  `astype(str)` is
modelled concretely (`"nan"` for nulls, decimal rendering for
numbers).  A raised `pa.errors.SchemaErrors` becomes
`Except.error (failure_cases, df-at-raise-time)`, so the frame state
at the moment of the raise is part of the result. -/

/-- `series.astype(str)` per cell. -/
def pyStrCell : PCell → PCell
  | .null => .str "nan"
  | .str s => .str s
  | .num n => .str (toString n)

/-- `df[col] = vals` for an existing column `col`. -/
def Frame.setCol (df : Frame) (c : String) (vals : List PCell) : Frame :=
  match df.cols.findIdx? (· == c) with
  | some i => { cols := df.cols, rows := (df.rows.zip vals).map (fun rv => rv.1.set i rv.2) }
  | none => df

/-- One iteration of the `_coerce_field_types` loop for a present
column: returns the updated frame and an optional failure record. -/
def coerceOne (pdDT pdInt pdNum : PCell → PCell) (df : Frame) (col spec : String) :
    Frame × Option (String × String) :=
  let target := pyLower spec
  let series := df.colVals col
  if target = "date" ∨ target = "datetime" then
    let non_null := (series.filter PCell.notna).length
    let converted := series.map pdDT
    let failed := non_null - (converted.filter PCell.notna).length
    (df.setCol col converted,
      if failed ≠ 0 then some (col, toString failed ++ " datetime parse failures") else none)
  else if target = "int" ∨ target = "integer" then
    let non_null := (series.filter PCell.notna).length
    let converted := series.map pdInt
    let failed := non_null - (converted.filter PCell.notna).length
    (df.setCol col converted,
      if failed ≠ 0 then some (col, toString failed ++ " integer parse failures") else none)
  else if target = "float" ∨ target = "number" ∨ target = "numeric" then
    let non_null := (series.filter PCell.notna).length
    let converted := series.map pdNum
    let failed := non_null - (converted.filter PCell.notna).length
    (df.setCol col converted,
      if failed ≠ 0 then some (col, toString failed ++ " numeric parse failures") else none)
  else if target = "str" ∨ target = "string" ∨ target = "text" then
    (df.setCol col (series.map pyStrCell), none)
  else (df, none)

/-- `_coerce_field_types` from engine.py lines 18-52. -/
def coerce_field_types (pdDT pdInt pdNum : PCell → PCell) (df : Frame)
    (type_map : List (String × String)) : Frame × List (String × String) :=
  type_map.foldl
    (fun acc p =>
      if acc.1.cols.contains p.1 then
        let step := coerceOne pdDT pdInt pdNum acc.1 p.1 p.2
        (step.1, acc.2 ++ step.2.toList)
      else acc)
    (df, [])

/-- `OutputSchema.validate(df, lazy=True)` (schema.py): coerce the
four optional nullable contract columns when present; extra columns
pass through.  (Pandera failure modes of this lenient final check are
outside the verified claims; it is modelled as always succeeding.) -/
def outputSchemaValidate (pdDT pdNum : PCell → PCell) (df : Frame) :
    Except (List (String × String) × Frame) Frame :=
  let coercions : List (String × (PCell → PCell)) :=
    [("provider_id", pyStrCell), ("article_sku", pyStrCell),
     ("report_date", pdDT), ("sales_amount", pdNum)]
  .ok (coercions.foldl
    (fun d p => if d.cols.contains p.1 then d.setCol p.1 ((d.colVals p.1).map p.2) else d)
    df)

/-- `validate` from engine.py lines 55-80. -/
def validate (pdDT pdInt pdNum : PCell → PCell) (df : Frame) (t : Template)
    (validation_level : String) : Except (List (String × String) × Frame) Frame :=
  let level := pyLower (if validation_level = "" then "coerce" else validation_level)
  if level = "off" then .ok df
  else if level = "contract" then
    let missing_required := t.required_fields.filter (fun f => !(df.cols.contains f))
    if ¬ missing_required.isEmpty then
      .error (missing_required.map (fun c => (c, "missing required column")), df)
    else if ¬ t.field_types.isEmpty then
      let step := coerce_field_types pdDT pdInt pdNum df t.field_types
      if ¬ step.2.isEmpty then .error (step.2, step.1)
      else outputSchemaValidate pdDT pdNum step.1
    else outputSchemaValidate pdDT pdNum df
  else outputSchemaValidate pdDT pdNum df

/-- C3: under `contract` validation, a missing required field raises
with one `missing required column` record per missing field, and the
frame carried at the raise is the input frame itself — no type
coercion has touched it. -/
theorem validate_contract_missing_required (pdDT pdInt pdNum : PCell → PCell)
    (df : Frame) (t : Template)
    (hmiss : t.required_fields.filter (fun f => !(df.cols.contains f)) ≠ []) :
    validate pdDT pdInt pdNum df t "contract" =
      .error ((t.required_fields.filter (fun f => !(df.cols.contains f))).map
        (fun c => (c, "missing required column")), df) := by
  unfold validate
  have hlevel : pyLower (if "contract" = "" then "coerce" else "contract") = "contract" := by
    decide
  rw [hlevel]
  rw [if_neg (by decide), if_pos rfl, if_pos]
  simpa using hmiss

/-- Witness for C3: a template requiring `"x"` against a frame with a
single column `"a"` raises with exactly one failure record and an
untouched frame. -/
theorem validate_contract_missing_required_witness :
    validate id id id ⟨["a"], [[PCell.num 1]]⟩
        { Template.withDefaults none with
            required_fields := ["x"]
            field_types := [("a", "int")] } "contract" =
      .error ((["x"].filter (fun f => !(["a"].contains f))).map
        (fun c => (c, "missing required column")), ⟨["a"], [[PCell.num 1]]⟩) := by
  exact validate_contract_missing_required id id id _ _ (by decide)

/-! ## Template serialization
(data-frame-tool-clean/src/templates.py, `Template.to_dict` lines
127-159 and `Template.from_dict` lines 161-290)

JSON/YAML payload values are embedded as `JValue`; Python floats in
payloads become `ℚ`.  `payload.get` with a present-but-null key
returns null (not the default), which the `Option JValue` result of
`jget` captures.  `Except.error` models the exceptions `from_dict` can
raise (non-dict payload, `KeyError`, `int()` failures) plus guards for
payloads whose runtime types violate the dataclass annotations (those
guards are unreachable from `to_dict` output). -/

inductive JValue where
  | null : JValue
  | b : Bool → JValue
  | i : Int → JValue
  | q : ℚ → JValue
  | s : String → JValue
  | list : List JValue → JValue
  | dict : List (String × JValue) → JValue

/-- Dictionary lookup: `payload[k]` when present. -/
def jget (d : List (String × JValue)) (k : String) : Option JValue :=
  (d.find? (fun p => p.1 == k)).map Prod.snd

/-- `payload.get(k1, payload.get(k2))`. -/
def jget2 (d : List (String × JValue)) (k1 k2 : String) : Option JValue :=
  match jget d k1 with
  | some v => some v
  | none => jget d k2

/-- Python truthiness of a payload value. -/
def truthyJ : JValue → Bool
  | .null => false
  | .b v => v
  | .i n => !(n == 0)
  | .q v => !(v == 0)
  | .s v => !(v == "")
  | .list l => !l.isEmpty
  | .dict d => !d.isEmpty

/-- Python `bool(...)` on a payload value. -/
def pyBool (v : JValue) : Bool := truthyJ v

/-- Python `int(...)` on a payload value (numeric strings are out of
the embedding's scope and error). -/
def pyInt : JValue → Except String Int
  | .i n => .ok n
  | .b true => .ok 1
  | .b false => .ok 0
  | .q v => .ok (if 0 ≤ v then v.floor else v.ceil)
  | _ => .error "int() failed"

/-- Python `str(...)` on a payload value (floats and containers are
out of scope and error). -/
def pyStr : JValue → Except String String
  | .s v => .ok v
  | .i n => .ok (toString n)
  | .b true => .ok "True"
  | .b false => .ok "False"
  | .null => .ok "None"
  | _ => .error "str() out of scope"

/-- Python `float(...)` with `try/except` returning `None` on failure
(strings are treated as unparseable — `to_dict` never stores the
threshold as a string). -/
def pyFloatOpt : JValue → Option ℚ
  | .i n => some (n : ℚ)
  | .q v => some v
  | .b true => some 1
  | .b false => some 0
  | _ => none

/-- `item in (None, "")` — the filter used for `combine_on`,
`dedupe_on` and `required_fields` entries. -/
def isNoneOrEmptyStr : JValue → Bool
  | .null => true
  | .s v => v == ""
  | _ => false

def JValue.isNull : JValue → Bool
  | .null => true
  | _ => false

/-- A `str | int` scalar expected by typed fields. -/
def decodeSIV : JValue → Except String SIV
  | .s v => .ok (SIV.s v)
  | .i n => .ok (SIV.i n)
  | _ => .error "expected str | int"

def decodeOptSIV : Option JValue → Except String (Option SIV)
  | none => .ok none
  | some .null => .ok none
  | some (.s v) => .ok (some (SIV.s v))
  | some (.i n) => .ok (some (SIV.i n))
  | some _ => .error "expected str | int | null"

def decodeStr : JValue → Except String String
  | .s v => .ok v
  | _ => .error "expected str"

def decodeOptStr : Option JValue → Except String (Option String)
  | none => .ok none
  | some .null => .ok none
  | some (.s v) => .ok (some v)
  | some _ => .error "expected str | null"

def decodeInt : JValue → Except String Int
  | .i n => .ok n
  | _ => .error "expected int"

/-- Encoders used by `to_dict`. -/
def encSIV : SIV → JValue
  | .s v => .s v
  | .i n => .i n

def encOptSIV : Option SIV → JValue
  | none => .null
  | some v => encSIV v

def encOptStr : Option String → JValue
  | none => .null
  | some v => .s v

def encOptQ : Option ℚ → JValue
  | none => .null
  | some v => .q v

def HeaderCell.to_dict (h : HeaderCell) : JValue :=
  .dict ([("name", .s h.name), ("column", .i h.column), ("row", .i h.row)] ++
    (match h.aliasName with
     | some a => if a ≠ "" then [("alias", .s a)] else []
     | none => []))

def HeaderCell.from_dict (v : JValue) : Except String HeaderCell := do
  match v with
  | .dict p =>
    let nameV ← match jget p "name" with
      | some x => Except.ok x
      | none => Except.error "KeyError: name"
    let name ← pyStr nameV
    let colV ← match jget p "column" with
      | some x => Except.ok x
      | none => Except.error "KeyError: column"
    let column ← pyInt colV
    let rowV ← match jget p "row" with
      | some x => Except.ok x
      | none => Except.error "KeyError: row"
    let row ← pyInt rowV
    let aliasName ← match jget p "alias" with
      | none => Except.ok none
      | some .null => Except.ok none
      | some (.s a) => Except.ok (some a)
      | some _ => Except.error "alias must be a string"
    Except.ok ⟨name, column, row, aliasName⟩
  | _ => Except.error "HeaderCell payload must be a dict"

def Template.to_dict (t : Template) : JValue :=
  .dict
    [("template_version", .i t.template_version),
     ("source_type", .s t.source_type),
     ("sheet", encOptSIV t.sheet),
     ("sheets", .list (t.sheets.map encSIV)),
     ("header_row", .i t.header_row),
     ("skiprows", .list (t.skiprows.map JValue.i)),
     ("delimiter", .s t.delimiter),
     ("encoding", .s t.encoding),
     ("columns", .list (t.columns.map JValue.s)),
     ("column_mappings", .dict (t.column_mappings.map (fun p => (p.1, JValue.s p.2)))),
     ("headers", .list (t.headers.map HeaderCell.to_dict)),
     ("source_file", encOptStr t.source_file),
     ("output_dir", encOptStr t.output_dir),
     ("provider_name", encOptStr t.provider_name),
     ("combine_sheets", .b t.combine_sheets),
     ("combine_on", .list (t.combine_on.map JValue.s)),
     ("connection_name", encOptStr t.connection_name),
     ("trim_strings", .b t.trim_strings),
     ("drop_empty_rows", .b t.drop_empty_rows),
     ("drop_null_columns_threshold", encOptQ t.drop_null_columns_threshold),
     ("dedupe_on", .list (t.dedupe_on.map JValue.s)),
     ("strip_thousands", .b t.strip_thousands),
     ("sql_table", encOptStr t.sql_table),
     ("sql_query", encOptStr t.sql_query),
     ("unpivot", .b t.unpivot),
     ("id_columns", .list (t.id_columns.map JValue.s)),
     ("var_name", .s t.var_name),
     ("value_name", .s t.value_name),
     ("required_fields", .list (t.required_fields.map JValue.s)),
     ("field_types", .dict (t.field_types.map (fun p => (p.1, JValue.s p.2))))]

/-- `"a,b , c".split(",")` with `.strip()` and empty-part filtering,
as used for string-valued `combine_on` / `dedupe_on`. -/
def splitCommaClean (v : String) : List String :=
  ((v.splitOn ",").map pyStrip).filter (fun part => part ≠ "")

/-- `sheets = [s for s in payload.get("sheets", []) if s is not None]`
(with the `isinstance(..., list)` guard). -/
def decodeSheets (v : Option JValue) : Except String (List SIV) :=
  match v.getD (.list []) with
  | .list raw => (raw.filter (fun x => !x.isNull)).mapM decodeSIV
  | _ => Except.ok []

/-- `int(header_raw) if header_raw is not None else 0`. -/
def decodeHeaderRow (v : Option JValue) : Except String Int :=
  match v with
  | none => Except.ok 0
  | some .null => Except.ok 0
  | some x => pyInt x

/-- `[str(c) for c in payload.get("columns", ...) if c is not None]`. -/
def decodeColumns (v : Option JValue) : Except String (List String) :=
  match v.getD (.list []) with
  | .list raw => (raw.filter (fun c => !c.isNull)).mapM pyStr
  | _ => Except.error "columns payload must be a list"

/-- `(... or {})` then `{str(k): str(v) for k, v in mapping.items()}`. -/
def decodeMapping (v : Option JValue) : Except String (List (String × String)) :=
  let raw := v.getD (.dict [])
  match (if truthyJ raw then raw else .dict []) with
  | .dict entries => entries.mapM (fun p => do
      let v2 ← pyStr p.2
      Except.ok (p.1, v2))
  | _ => Except.error "column_mappings payload must be a dict"

/-- `{str(k): str(v) for ...} if isinstance(raw, dict) else {}`. -/
def decodeFieldTypes (v : Option JValue) : Except String (List (String × String)) :=
  match v.getD (.dict []) with
  | .dict entries => entries.mapM (fun p => do
      let v2 ← pyStr p.2
      Except.ok (p.1, v2))
  | _ => Except.ok []

/-- `[HeaderCell.from_dict(item) for item in payload.get("headers", [])]`. -/
def decodeHeadersList (v : Option JValue) : Except String (List HeaderCell) :=
  match v.getD (.list []) with
  | .list raw => raw.mapM HeaderCell.from_dict
  | _ => Except.error "headers payload must be a list"

/-- `list(skiprows_raw) if isinstance(skiprows_raw, list) else []`. -/
def decodeSkiprows (v : Option JValue) : Except String (List Int) :=
  match v.getD (.list []) with
  | .list raw => raw.mapM decodeInt
  | _ => Except.ok []

/-- The `combine_on` / `dedupe_on` decoding: a list filters out `None`
and `""` entries; a string is comma-split, stripped, and cleaned. -/
def decodeCleanList (v : Option JValue) : Except String (List String) :=
  match v.getD (.list []) with
  | .list raw => (raw.filter (fun x => !isNoneOrEmptyStr x)).mapM pyStr
  | .s v2 => Except.ok (splitCommaClean v2)
  | _ => Except.ok []

/-- `[str(f) for f in required_fields_raw if f not in (None, "")]`. -/
def decodeReqFields (v : Option JValue) : Except String (List String) :=
  match v.getD (.list []) with
  | .list raw => (raw.filter (fun x => !isNoneOrEmptyStr x)).mapM pyStr
  | _ => Except.ok []

/-- `list(id_columns_raw) if isinstance(id_columns_raw, list) else []`. -/
def decodeStrListRaw (v : Option JValue) : Except String (List String) :=
  match v.getD (.list []) with
  | .list raw => raw.mapM decodeStr
  | _ => Except.ok []

/-- `int(payload.get("template_version", 3))`. -/
def decodeTemplateVersion (v : Option JValue) : Except String Int :=
  match v.getD (.i 3) with
  | .null => Except.error "int() failed"
  | x => pyInt x

/-- `float(raw) if raw is not None else None`, `except → None`. -/
def decodeThreshold (v : Option JValue) : Option ℚ :=
  match v with
  | none => none
  | some .null => none
  | some x => pyFloatOpt x

/-- `if not sheets and sheet is not None: sheets = [sheet]`. -/
def compatSheets (sheets0 : List SIV) (sheet : Option SIV) : List SIV :=
  match sheets0, sheet with
  | [], some sv => [sv]
  | l, _ => l

def Template.from_dict (v : JValue) : Except String Template := do
  match v with
  | .dict payload =>
    let sheet ← decodeOptSIV (jget2 payload "sheet" "sheet_name")
    let sheets0 ← decodeSheets (jget payload "sheets")
    let header_row ← decodeHeaderRow (jget2 payload "header_row" "header")
    let columns0 ← decodeColumns (jget2 payload "columns" "selected_headers")
    let column_mappings ← decodeMapping (jget2 payload "column_mappings" "header_mapping")
    let headers ← decodeHeadersList (jget payload "headers")
    let skiprows ← decodeSkiprows (jget payload "skiprows")
    let delimiter ← decodeStr ((jget payload "delimiter").getD (.s ","))
    let encoding ← decodeStr ((jget payload "encoding").getD (.s "utf-8"))
    let source_type ← decodeStr ((jget payload "source_type").getD (.s "excel"))
    let source_file ← decodeOptStr (jget2 payload "source_file" "excel_file")
    let output_dir ← decodeOptStr (jget payload "output_dir")
    let provider_name ← decodeOptStr (jget payload "provider_name")
    let combine_sheets0 := pyBool ((jget payload "combine_sheets").getD (.b false))
    let combine_on ← decodeCleanList (jget payload "combine_on")
    let unpivot := pyBool ((jget payload "unpivot").getD (.b false))
    let id_columns ← decodeStrListRaw (jget payload "id_columns")
    let var_name ← decodeStr ((jget payload "var_name").getD (.s "report_date"))
    let value_name ← decodeStr ((jget payload "value_name").getD (.s "sales_amount"))
    let required_fields ← decodeReqFields (jget payload "required_fields")
    let field_types ← decodeFieldTypes (jget payload "field_types")
    let template_version ← decodeTemplateVersion (jget payload "template_version")
    let connection_name ← decodeOptStr (jget payload "connection_name")
    let trim_strings := pyBool ((jget payload "trim_strings").getD (.b true))
    let drop_empty_rows := pyBool ((jget payload "drop_empty_rows").getD (.b false))
    let drop_null_columns_threshold :=
      decodeThreshold (jget payload "drop_null_columns_threshold")
    let dedupe_on ← decodeCleanList (jget payload "dedupe_on")
    let strip_thousands := pyBool ((jget payload "strip_thousands").getD (.b false))
    let sql_table ← decodeOptStr (jget payload "sql_table")
    let sql_query ← decodeOptStr (jget payload "sql_query")
    let sheets := compatSheets sheets0 sheet
    let combine_sheets :=
      if combine_sheets0 = false ∧ 1 < sheets.length then true else combine_sheets0
    let columns1 :=
      if headers ≠ [] ∧ columns0 = [] then headers.map HeaderCell.name else columns0
    let columns :=
      if columns1 = [] ∧ column_mappings ≠ [] then column_mappings.map Prod.fst
      else columns1
    Except.ok
      { sheet := sheet
        sheets := sheets
        header_row := header_row
        columns := columns
        column_mappings := column_mappings
        headers := headers
        skiprows := skiprows
        delimiter := delimiter
        encoding := encoding
        source_type := source_type
        source_file := source_file
        output_dir := output_dir
        provider_name := provider_name
        combine_sheets := combine_sheets
        combine_on := combine_on
        connection_name := connection_name
        sql_table := sql_table
        sql_query := sql_query
        trim_strings := trim_strings
        drop_empty_rows := drop_empty_rows
        drop_null_columns_threshold := drop_null_columns_threshold
        dedupe_on := dedupe_on
        strip_thousands := strip_thousands
        unpivot := unpivot
        id_columns := id_columns
        var_name := var_name
        value_name := value_name
        required_fields := required_fields
        field_types := field_types
        template_version := template_version }
  | _ => Except.error "Template file must contain a JSON/YAML object"

/-! ### Round-trip lemmas -/

theorem ebind_ok {α β : Type} (a : α) (f : α → Except String β) :
    (Except.ok a >>= f : Except String β) = f a := rfl

theorem epure_eq {α : Type} (a : α) : (pure a : Except String α) = Except.ok a := rfl

theorem pyStr_s (v : String) : pyStr (.s v) = Except.ok v := rfl

theorem decodeOptSIV_enc (v : Option SIV) :
    decodeOptSIV (some (encOptSIV v)) = Except.ok v := by
  rcases v with _ | sv
  · rfl
  · rcases sv with s | n <;> rfl

theorem isNull_s (v : String) : (JValue.s v).isNull = false := rfl

theorem isNull_i (n : Int) : (JValue.i n).isNull = false := rfl

theorem isNoneOrEmptyStr_s (v : String) : isNoneOrEmptyStr (.s v) = (v == "") := rfl

theorem decodeSheets_enc (l : List SIV) :
    decodeSheets (some (.list (l.map encSIV))) = Except.ok l := by
  show ((l.map encSIV).filter (fun x => !x.isNull)).mapM decodeSIV = Except.ok l
  induction l with
  | nil => rfl
  | cons a t ih =>
    rcases a with sv | n <;>
      simp only [List.map_cons, List.filter_cons, encSIV, isNull_s, isNull_i,
        Bool.not_false, if_true, List.mapM_cons, decodeSIV, ebind_ok, ih, epure_eq]

theorem decodeColumns_enc (l : List String) :
    decodeColumns (some (.list (l.map JValue.s))) = Except.ok l := by
  show ((l.map JValue.s).filter (fun c => !c.isNull)).mapM pyStr = Except.ok l
  induction l with
  | nil => rfl
  | cons a t ih =>
    simp only [List.map_cons, List.filter_cons, isNull_s, Bool.not_false, if_true,
      List.mapM_cons, pyStr, ebind_ok, ih, epure_eq]

theorem decodeMapping_enc (l : List (String × String)) :
    decodeMapping (some (.dict (l.map (fun p => (p.1, JValue.s p.2))))) = Except.ok l := by
  have key : ∀ (m : List (String × String)),
      (m.map (fun p => (p.1, JValue.s p.2))).mapM (fun p => do
        let v2 ← pyStr p.2
        Except.ok (p.1, v2)) = Except.ok m := by
    intro m
    induction m with
    | nil => rfl
    | cons a t ih =>
      simp only [List.map_cons, List.mapM_cons, pyStr_s, ebind_ok, ih, epure_eq]
  cases l with
  | nil => rfl
  | cons a t =>
    show decodeMapping (some (.dict ((a :: t).map (fun p => (p.1, JValue.s p.2))))) =
      Except.ok (a :: t)
    unfold decodeMapping
    simp only [Option.getD_some, List.map_cons, truthyJ, List.isEmpty_cons, Bool.not_false,
      if_true]
    exact key (a :: t)

theorem decodeFieldTypes_enc (l : List (String × String)) :
    decodeFieldTypes (some (.dict (l.map (fun p => (p.1, JValue.s p.2))))) = Except.ok l := by
  show (l.map (fun p => (p.1, JValue.s p.2))).mapM (fun p => do
      let v2 ← pyStr p.2
      Except.ok (p.1, v2)) = Except.ok l
  induction l with
  | nil => rfl
  | cons a t ih =>
    simp only [List.map_cons, List.mapM_cons, pyStr_s, ebind_ok, ih, epure_eq]

theorem headerCell_round_trip (hc : HeaderCell) (h : hc.aliasName ≠ some "") :
    HeaderCell.from_dict (HeaderCell.to_dict hc) = Except.ok hc := by
  rcases hc with ⟨name, col, row, al⟩
  rcases al with _ | a
  · rfl
  · have ha : a ≠ "" := by simpa using h
    show HeaderCell.from_dict (HeaderCell.to_dict ⟨name, col, row, some a⟩) = _
    unfold HeaderCell.to_dict
    simp only
    rw [if_pos ha]
    rfl

theorem decodeHeadersList_enc (l : List HeaderCell)
    (h : ∀ x ∈ l, x.aliasName ≠ some "") :
    decodeHeadersList (some (.list (l.map HeaderCell.to_dict))) = Except.ok l := by
  show (l.map HeaderCell.to_dict).mapM HeaderCell.from_dict = Except.ok l
  induction l with
  | nil => rfl
  | cons a t ih =>
    have ha := headerCell_round_trip a (h a (List.mem_cons_self _ _))
    have ht := ih (fun x hx => h x (List.mem_cons_of_mem _ hx))
    simp only [List.map_cons, List.mapM_cons, ha, ebind_ok, ht, epure_eq]

theorem decodeSkiprows_enc (l : List Int) :
    decodeSkiprows (some (.list (l.map JValue.i))) = Except.ok l := by
  show (l.map JValue.i).mapM decodeInt = Except.ok l
  induction l with
  | nil => rfl
  | cons a t ih =>
    simp only [List.map_cons, List.mapM_cons, decodeInt, ebind_ok, ih, epure_eq]

theorem decodeStrListRaw_enc (l : List String) :
    decodeStrListRaw (some (.list (l.map JValue.s))) = Except.ok l := by
  show (l.map JValue.s).mapM decodeStr = Except.ok l
  induction l with
  | nil => rfl
  | cons a t ih =>
    simp only [List.map_cons, List.mapM_cons, decodeStr, ebind_ok, ih, epure_eq]

theorem decodeCleanList_enc (l : List String) (h : ∀ f ∈ l, f ≠ "") :
    decodeCleanList (some (.list (l.map JValue.s))) = Except.ok l := by
  show ((l.map JValue.s).filter (fun x => !isNoneOrEmptyStr x)).mapM pyStr = Except.ok l
  induction l with
  | nil => rfl
  | cons a t ih =>
    have ha : (a == "") = false := by
      simpa using h a (List.mem_cons_self _ _)
    have ht := ih (fun f hf => h f (List.mem_cons_of_mem _ hf))
    simp only [List.map_cons, List.filter_cons, isNoneOrEmptyStr_s, ha, Bool.not_false,
      if_true, List.mapM_cons, pyStr, ebind_ok, ht, epure_eq]

theorem decodeReqFields_enc (l : List String) (h : ∀ f ∈ l, f ≠ "") :
    decodeReqFields (some (.list (l.map JValue.s))) = Except.ok l := by
  show ((l.map JValue.s).filter (fun x => !isNoneOrEmptyStr x)).mapM pyStr = Except.ok l
  induction l with
  | nil => rfl
  | cons a t ih =>
    have ha : (a == "") = false := by
      simpa using h a (List.mem_cons_self _ _)
    have ht := ih (fun f hf => h f (List.mem_cons_of_mem _ hf))
    simp only [List.map_cons, List.filter_cons, isNoneOrEmptyStr_s, ha, Bool.not_false,
      if_true, List.mapM_cons, pyStr, ebind_ok, ht, epure_eq]

theorem decodeOptStr_enc (v : Option String) :
    decodeOptStr (some (encOptStr v)) = Except.ok v := by
  rcases v with _ | s <;> rfl

theorem decodeThreshold_enc (v : Option ℚ) :
    decodeThreshold (some (encOptQ v)) = v := by
  rcases v with _ | q <;> rfl

theorem decodeHeaderRow_i (n : Int) : decodeHeaderRow (some (.i n)) = Except.ok n := rfl

theorem decodeTemplateVersion_i (n : Int) :
    decodeTemplateVersion (some (.i n)) = Except.ok n := rfl

theorem decodeStr_s (v : String) : decodeStr (.s v) = Except.ok v := rfl

theorem pyBool_b (v : Bool) : pyBool (.b v) = v := by cases v <;> rfl

theorem compatSheets_id {sheets : List SIV} {sheet : Option SIV}
    (h : sheets ≠ [] ∨ sheet = none) : compatSheets sheets sheet = sheets := by
  cases sheets with
  | nil =>
    cases sheet with
    | none => rfl
    | some sv =>
      rcases h with h | h
      · exact absurd rfl h
      · exact absurd h (by simp)
  | cons a l =>
    cases sheet with
    | none => rfl
    | some sv => rfl

/-- C8 counterexample: the default template with `sheet = "S1"` and
`sheets = []` does NOT round-trip: `from_dict` rewrites `sheets` to
`["S1"]`, so not every field is reproduced. -/
theorem template_round_trip_counterexample :
    Template.from_dict (Template.to_dict (Template.withDefaults (some (SIV.s "S1")))) ≠
      Except.ok (Template.withDefaults (some (SIV.s "S1"))) := by
  have h : Template.from_dict (Template.to_dict (Template.withDefaults (some (SIV.s "S1")))) =
      Except.ok { Template.withDefaults (some (SIV.s "S1")) with sheets := [SIV.s "S1"] } :=
    rfl
  rw [h]
  intro hc
  have h2 := Except.ok.inj hc
  have h3 := congrArg Template.sheets h2
  simp [Template.withDefaults] at h3

/-- C8 as amended: serialize-then-deserialize reproduces every field
— `headers`, `skiprows`, `required_fields`, `field_types` included —
for every template already in `from_dict`'s backwards-compatibility
normal form: non-empty `sheets` unless `sheet` is unset,
`combine_sheets` set when more than one sheet, `columns` non-empty
unless both `headers` and `column_mappings` are empty, no
empty-string `alias`, and no empty-string entries in
`required_fields` / `combine_on` / `dedupe_on` (from_dict drops
those). -/
theorem template_round_trip (t : Template)
    (hsheets : t.sheets ≠ [] ∨ t.sheet = none)
    (hcs : t.combine_sheets = true ∨ t.sheets.length ≤ 1)
    (hcols : t.columns ≠ [] ∨ (t.headers = [] ∧ t.column_mappings = []))
    (halias : ∀ hc ∈ t.headers, hc.aliasName ≠ some "")
    (hreq : ∀ f ∈ t.required_fields, f ≠ "")
    (hcomb : ∀ f ∈ t.combine_on, f ≠ "")
    (hded : ∀ f ∈ t.dedupe_on, f ≠ "") :
    Template.from_dict (Template.to_dict t) = Except.ok t := by
  have hH := decodeHeadersList_enc t.headers halias
  have hR := decodeReqFields_enc t.required_fields hreq
  have hC := decodeCleanList_enc t.combine_on hcomb
  have hD := decodeCleanList_enc t.dedupe_on hded
  have hcompat := compatSheets_id hsheets
  simp only [Template.from_dict, Template.to_dict, jget, jget2, List.find?,
    String.reduceBEq, Option.map_some', Option.map_none', Option.getD_some, decodeOptSIV_enc, decodeSheets_enc, decodeHeaderRow_i,
    decodeColumns_enc, decodeMapping_enc, hH, decodeSkiprows_enc, decodeStr_s,
    decodeOptStr_enc, pyBool_b, hC, decodeStrListRaw_enc, hR, decodeFieldTypes_enc,
    decodeTemplateVersion_i, decodeThreshold_enc, hD, ebind_ok, epure_eq, hcompat]
  have hncs : ¬ (t.combine_sheets = false ∧ 1 < t.sheets.length) := by
    rintro ⟨hf, hlen⟩
    rcases hcs with h | h
    · rw [h] at hf
      exact absurd hf (by decide)
    · omega
  have hnc1 : ¬ (t.headers ≠ [] ∧ t.columns = []) := by
    rintro ⟨hh, hc⟩
    rcases hcols with h | h
    · exact h hc
    · exact hh h.1
  have hnc2 : ¬ (t.columns = [] ∧ t.column_mappings ≠ []) := by
    rintro ⟨hc1, hc2⟩
    rcases hcols with h | h
    · exact h hc1
    · exact hc2 h.2
  rw [if_neg hncs, if_neg hnc1, if_neg hnc2]

/-- The repository's own round-trip test template, in normal form. -/
def tC8 : Template :=
  { Template.withDefaults (some (SIV.s "Sheet1")) with
      sheets := [SIV.s "Sheet1"]
      header_row := 2
      columns := ["A", "B"]
      column_mappings := [("A", "col_a"), ("B", "col_b")]
      skiprows := [0, 1]
      trim_strings := false
      drop_empty_rows := true
      unpivot := true
      id_columns := ["A"]
      var_name := "period"
      value_name := "amount"
      required_fields := ["col_a", "period"]
      field_types := [("period", "date"), ("amount", "numeric")]
      provider_name := some "acme" }

/-- Witness for the amended C8 at a concrete normal-form template. -/
theorem template_round_trip_witness :
    Template.from_dict (Template.to_dict tC8) = Except.ok tC8 :=
  template_round_trip tC8 (Or.inl (by decide)) (Or.inr (by decide)) (Or.inl (by decide))
    (by decide) (by decide) (by decide) (by decide)

/-! ## Schema candidates (src/services/schema_candidates.py)

`_normalize_month` (lines 71-117), the year+month header combination
and candidate assembly of `build_schema_candidates` (lines 128-236).
The pandas column heuristics `is_numeric_col` / `is_texty_col`
(to_numeric ratios over cell values) enter the embedding as oracle
parameters `numericCol` / `textyCol` on column names. -/

def month_map : List (String × String) :=
  [("tammikuu", "jan"), ("helmikuu", "feb"), ("maaliskuu", "mar"),
   ("huhtikuu", "apr"), ("toukokuu", "may"), ("kesäkuu", "jun"),
   ("heinäkuu", "jul"), ("elokuu", "aug"), ("syyskuu", "sep"),
   ("lokakuu", "oct"), ("marraskuu", "nov"), ("joulukuu", "dec"),
   ("januaari", "jan"), ("january", "jan"), ("february", "feb"),
   ("march", "mar"), ("april", "apr"), ("may", "may"), ("june", "jun"),
   ("july", "jul"), ("august", "aug"), ("september", "sep"),
   ("october", "oct"), ("november", "nov"), ("december", "dec"),
   ("januari", "jan"), ("februari", "feb"), ("mars", "mar"),
   ("maj", "may"), ("juni", "jun"), ("juli", "jul"), ("augusti", "aug"),
   ("oktober", "oct"), ("maerz", "mar"), ("märz", "mar"), ("mai", "may"),
   ("dezember", "dec")]

def monthAbbrevs : List String :=
  ["jan", "feb", "mar", "apr", "may", "jun", "jul", "aug", "sep", "oct", "nov", "dec"]

/-- `_normalize_month` from schema_candidates.py lines 71-117. -/
def normalize_month (token : String) : Option String :=
  let lower := pyLower token
  match month_map.lookup lower with
  | some m => some m
  | none => monthAbbrevs.find? (fun eng => pyIn eng lower)

/-- `str(h).replace("/", " ").replace("-", " ").split()`:
split-on-whitespace discarding empty parts. -/
def splitWSGo : List Char → List Char → List String
  | [], acc => if acc.isEmpty then [] else [⟨acc.reverse⟩]
  | c :: t, acc =>
    if pyIsSpace c then
      if acc.isEmpty then splitWSGo t [] else ⟨acc.reverse⟩ :: splitWSGo t []
    else splitWSGo t (c :: acc)

def splitParts (h : String) : List String :=
  splitWSGo (h.data.map (fun c => if c = '/' ∨ c = '-' then ' ' else c)) []

/-- Python `str.isdigit()` at ASCII fidelity (false for the empty
string). -/
def isDigitStr (s : String) : Bool :=
  !s.data.isEmpty && s.data.all Char.isDigit

/-- Truthiness of an `Optional[str]`: `None` and `""` are falsy. -/
def strOptTruthy : Option String → Bool
  | none => false
  | some s => s ≠ ""

/-- One header of the combination loop (lines 147-155):
`year = next((p for p in parts if p.isdigit() and len(p) == 4), None)`,
`month = next((_normalize_month(p) for p in parts if _normalize_month(p)), None)`,
and the `if year and month` merge. -/
def combineHeaderStep (h : String) : String × Bool :=
  let parts := splitParts h
  let year := parts.find? (fun p => isDigitStr p && (p.length == 4))
  let month := parts.findSome? normalize_month
  if strOptTruthy year && strOptTruthy month then
    (year.getD "" ++ "-" ++ month.getD "", true)
  else (h, false)

def combinedHeaders (headers : List String) : List String :=
  headers.map (fun h => (combineHeaderStep h).1)

def combinedChanged (headers : List String) : Bool :=
  headers.any (fun h => (combineHeaderStep h).2)

structure Candidate where
  label : String
  headers : List String
  score : ℚ
  note : String
deriving DecidableEq, Repr

structure AnnotatedCandidate extends Candidate where
  missing : List String
  extra : List String
deriving DecidableEq, Repr

/-- `schema_diff` from schema_candidates.py lines 120-125 (sorted set
differences). -/
def schema_diff (headers : List String) (target_fields : List String) :
    List String × List String :=
  let current := target_fields
  let missing := ((current.filter (fun c => !headers.contains c)).dedup).mergeSort
    (fun a b => decide (a ≤ b))
  let extra := ((headers.filter (fun c => !current.contains c)).dedup).mergeSort
    (fun a b => decide (a ≤ b))
  (missing, extra)

/-- The annotation pass of `build_schema_candidates` (lines 217-234). -/
def annotate (target_fields : List String) (cand : Candidate) : AnnotatedCandidate :=
  let md := schema_diff cand.headers target_fields
  let note :=
    if ¬md.1.isEmpty ∨ ¬md.2.isEmpty then
      let miss_txt :=
        if ¬md.1.isEmpty then
          " missing vs current schema: " ++ ", ".intercalate (md.1.take 5) ++
            (if 5 < md.1.length then "..." else "")
        else ""
      let extra_txt :=
        if ¬md.2.isEmpty then
          " extra: " ++ ", ".intercalate (md.2.take 5) ++
            (if 5 < md.2.length then "..." else "")
        else ""
      pyStrip (cand.note ++ " |" ++ miss_txt ++ " " ++ extra_txt)
    else cand.note
  { toCandidate := { cand with note := note }, missing := md.1, extra := md.2 }

structure NumericBlock where
  columns : List String
  start_idx : Nat
deriving DecidableEq, Repr

/-- Group consecutive `true` flags into index runs
(`find_numeric_blocks` lines 44-54). -/
def runsGo (idx : Nat) (current : List Nat) : List Bool → List (List Nat)
  | [] => if current.isEmpty then [] else [current]
  | f :: rest =>
    if f then runsGo (idx + 1) (current ++ [idx]) rest
    else if current.isEmpty then runsGo (idx + 1) [] rest
    else current :: runsGo (idx + 1) [] rest

/-- `find_numeric_blocks` from schema_candidates.py lines 36-68. -/
def find_numeric_blocks (cols : List String) (numericCol : String → Bool) :
    List NumericBlock :=
  let flags := cols.map numericCol
  (runsGo 0 [] flags).filterMap (fun block =>
    match block with
    | [] => none
    | i :: _ => some { columns := block.map (fun j => cols.getD j ""), start_idx := i })

/-- One numeric-block candidate (lines 161-177). -/
def blockCandidate (cols : List String) (textyCol : String → Bool)
    (b : NumericBlock) : Candidate :=
  let note0 := "Numeric block cols " ++ toString b.start_idx ++ "-" ++
    toString (b.start_idx + b.columns.length - 1) ++ " (size " ++
    toString b.columns.length ++ ")"
  let key_col : Option String :=
    if 0 < b.start_idx then
      let left := cols.getD (b.start_idx - 1) ""
      if textyCol left then some left else none
    else none
  match key_col with
  | some kc =>
    if kc ≠ "" ∧ ¬(b.columns.contains kc) then
      ⟨"Numeric block ordering", kc :: b.columns,
        min (60/100 + 5/100 * (b.columns.length : ℚ)) (90/100),
        note0 ++ "; key column '" ++ kc ++ "' on the left."⟩
    else
      ⟨"Numeric block ordering", b.columns,
        min (50/100 + 5/100 * (b.columns.length : ℚ)) (90/100), note0⟩
  | none =>
    ⟨"Numeric block ordering", b.columns,
      min (50/100 + 5/100 * (b.columns.length : ℚ)) (90/100), note0⟩

/-- `build_schema_candidates` from schema_candidates.py lines 128-236,
over column names with the numeric/texty column heuristics as
oracles. -/
def build_schema_candidates (cols : List String) (numericCol textyCol : String → Bool)
    (headers : List String) (data_type : String) (target_fields : List String) :
    List AnnotatedCandidate :=
  let numeric_cols := cols.filter numericCol
  let text_cols := cols.filter textyCol
  let candidates : List Candidate :=
    [⟨"As detected", headers, 20/100, "Headers as read from file."⟩] ++
    (if combinedChanged headers then
      [⟨"Combined year+month headers", combinedHeaders headers, 35/100,
        "Merged year + month tokens into single period labels."⟩]
     else []) ++
    ((find_numeric_blocks cols numericCol).map (blockCandidate cols textyCol)) ++
    (if data_type == "product_sales" then
      match text_cols.head? with
      | some kc =>
        if kc ≠ "" ∧ ¬numeric_cols.isEmpty then
          [⟨"Product key + numeric measures", kc :: cols.filter numericCol,
            55/100 + 5/100 * (numeric_cols.length : ℚ),
            "Text key '" ++ kc ++ "' with numeric measures."⟩]
        else []
      | none => []
     else []) ++
    (if data_type == "product_descriptions" then
      match text_cols.head? with
      | some kc =>
        if kc ≠ "" then
          [⟨"Description-first ordering", kc :: cols.filter (fun c => c ≠ kc), 45/100,
            "Longest text column '" ++ kc ++ "' first."⟩]
        else []
      | none => []
     else []) ++
    (if data_type == "sales" then
      if ¬numeric_cols.isEmpty then
        [⟨"Numeric-first (sales) ordering",
          numeric_cols ++ cols.filter (fun c => !numericCol c),
          50/100 + 5/100 * (numeric_cols.length : ℚ),
          "Prioritized numeric columns (likely amounts/quantities)."⟩]
      else []
     else [])
  let filtered := candidates.filter (fun cand =>
    cand.label == "As detected" || !(decide (cand.score < 25/100)))
  filtered.map (annotate target_fields)

/-! ### C9: the combined year+month candidate -/

theorem annotate_label (tf : List String) (c : Candidate) :
    (annotate tf c).label = c.label := rfl

theorem annotate_score (tf : List String) (c : Candidate) :
    (annotate tf c).score = c.score := rfl

theorem annotate_headers (tf : List String) (c : Candidate) :
    (annotate tf c).headers = c.headers := rfl

theorem blockCandidate_label (cols : List String) (tc : String → Bool)
    (b : NumericBlock) : (blockCandidate cols tc b).label = "Numeric block ordering" := by
  simp only [blockCandidate]
  repeat' split
  all_goals rfl

theorem lookup_mem_values :
    ∀ (l : List (String × String)) (k v : String), l.lookup k = some v →
      v ∈ l.map Prod.snd := by
  intro l
  induction l with
  | nil => intro k v h; simp [List.lookup] at h
  | cons a t ih =>
    intro k v h
    rw [List.lookup] at h
    cases hk : (k == a.1) with
    | true =>
      simp only [hk] at h
      simp only [Option.some.injEq] at h
      subst h
      exact List.mem_map.mpr ⟨a, List.mem_cons_self _ _, rfl⟩
    | false =>
      simp only [hk] at h
      exact List.mem_cons_of_mem _ (ih k v h)

theorem normalize_month_ne_empty {q m : String} (h : normalize_month q = some m) :
    m ≠ "" := by
  simp only [normalize_month] at h
  cases hl : month_map.lookup (pyLower q) with
  | some v =>
    rw [hl] at h
    simp only [Option.some.injEq] at h
    subst h
    have hv := lookup_mem_values month_map (pyLower q) v hl
    have hall : ∀ x ∈ month_map.map Prod.snd, x ≠ "" := by decide
    exact hall v hv
  | none =>
    rw [hl] at h
    have hm := List.mem_of_find?_eq_some h
    have hall : ∀ x ∈ monthAbbrevs, x ≠ "" := by decide
    exact hall m hm

theorem strOptTruthy_find_year (parts : List String) :
    strOptTruthy (parts.find? (fun p => isDigitStr p && (p.length == 4))) = true ↔
      ∃ p ∈ parts, (isDigitStr p && (p.length == 4)) = true := by
  constructor
  · intro h
    cases hf : parts.find? (fun p => isDigitStr p && (p.length == 4)) with
    | none => rw [hf] at h; simp [strOptTruthy] at h
    | some y =>
      have hy := List.find?_some hf
      exact ⟨y, List.mem_of_find?_eq_some hf, hy⟩
  · rintro ⟨p, hp, hpp⟩
    have hs : (parts.find? (fun p => isDigitStr p && (p.length == 4))).isSome := by
      rw [List.find?_isSome]
      exact ⟨p, hp, hpp⟩
    cases hf : parts.find? (fun p => isDigitStr p && (p.length == 4)) with
    | none => rw [hf] at hs; simp at hs
    | some y =>
      have hy := List.find?_some hf
      have hne : y ≠ "" := by
        intro he
        subst he
        simp [isDigitStr] at hy
      simp [strOptTruthy, hne]

theorem strOptTruthy_findSome_month (parts : List String) :
    strOptTruthy (parts.findSome? normalize_month) = true ↔
      ∃ q ∈ parts, normalize_month q ≠ none := by
  constructor
  · intro h
    cases hf : parts.findSome? normalize_month with
    | none => rw [hf] at h; simp [strOptTruthy] at h
    | some m =>
      obtain ⟨q, hq, hqm⟩ := List.exists_of_findSome?_eq_some hf
      exact ⟨q, hq, by simp [hqm]⟩
  · rintro ⟨q, hq, hqn⟩
    cases hf : parts.findSome? normalize_month with
    | none =>
      exfalso
      have := List.findSome?_eq_none_iff.mp hf q hq
      exact hqn this
    | some m =>
      obtain ⟨q2, hq2, hq2m⟩ := List.exists_of_findSome?_eq_some hf
      have hne : m ≠ "" := normalize_month_ne_empty hq2m
      simp [strOptTruthy, hne]

theorem combineHeaderStep_flag (h : String) :
    (combineHeaderStep h).2 = true ↔
      (∃ p ∈ splitParts h, (isDigitStr p && (p.length == 4)) = true) ∧
        (∃ q ∈ splitParts h, normalize_month q ≠ none) := by
  unfold combineHeaderStep
  by_cases hc : (strOptTruthy ((splitParts h).find? (fun p => isDigitStr p && (p.length == 4))) &&
      strOptTruthy ((splitParts h).findSome? normalize_month)) = true
  · rw [if_pos hc]
    simp only [Bool.and_eq_true] at hc
    simp only [true_iff]
    exact ⟨(strOptTruthy_find_year _).mp hc.1, (strOptTruthy_findSome_month _).mp hc.2⟩
  · rw [if_neg hc]
    simp only [Bool.false_eq_true, false_iff]
    rintro ⟨h1, h2⟩
    exact hc (by
      simp only [Bool.and_eq_true]
      exact ⟨(strOptTruthy_find_year _).mpr h1, (strOptTruthy_findSome_month _).mpr h2⟩)

theorem combinedChanged_iff (headers : List String) :
    combinedChanged headers = true ↔
      ∃ h ∈ headers,
        (∃ p ∈ splitParts h, (isDigitStr p && (p.length == 4)) = true) ∧
          (∃ q ∈ splitParts h, normalize_month q ≠ none) := by
  unfold combinedChanged
  rw [List.any_eq_true]
  constructor
  · rintro ⟨h, hh, hflag⟩
    exact ⟨h, hh, (combineHeaderStep_flag h).mp hflag⟩
  · rintro ⟨h, hh, hcond⟩
    exact ⟨h, hh, (combineHeaderStep_flag h).mpr hcond⟩

/-- C9 as amended: `build_schema_candidates` emits the combined
candidate (score 0.35, headers merged per-header into
`"<first 4-digit token>-<first month token>"`) precisely when at least
one header contains both a 4-digit digit token and a recognized month
token — in any positions within the header, with no [1900, 2100] range
restriction. -/
theorem schema_candidates_combined (cols : List String)
    (numericCol textyCol : String → Bool) (headers : List String)
    (data_type : String) (target_fields : List String) :
    (∃ ac ∈ build_schema_candidates cols numericCol textyCol headers data_type
        target_fields,
        ac.label = "Combined year+month headers" ∧ ac.score = 35/100 ∧
          ac.headers = combinedHeaders headers) ↔
      ∃ h ∈ headers,
        (∃ p ∈ splitParts h, (isDigitStr p && (p.length == 4)) = true) ∧
          (∃ q ∈ splitParts h, normalize_month q ≠ none) := by
  rw [← combinedChanged_iff]
  constructor
  · rintro ⟨ac, hmem, hlab, _, _⟩
    unfold build_schema_candidates at hmem
    simp only at hmem
    obtain ⟨c, hcf, rfl⟩ := List.mem_map.mp hmem
    rw [annotate_label] at hlab
    have hcand := List.mem_of_mem_filter hcf
    simp only [List.mem_append, List.mem_singleton] at hcand
    rcases hcand with ((((h1 | h2) | h3) | h4) | h5) | h6
    · rw [h1] at hlab
      simp at hlab
    · by_cases hch : combinedChanged headers = true
      · exact hch
      · rw [if_neg hch] at h2
        simp at h2
    · obtain ⟨b, _, hb⟩ := List.mem_map.mp h3
      rw [← hb, blockCandidate_label] at hlab
      simp at hlab
    · exfalso
      split at h4
      · split at h4
        · split at h4
          · simp only [List.mem_singleton] at h4
            rw [h4] at hlab
            simp at hlab
          · simp at h4
        · simp at h4
      · simp at h4
    · exfalso
      split at h5
      · split at h5
        · split at h5
          · simp only [List.mem_singleton] at h5
            rw [h5] at hlab
            simp at hlab
          · simp at h5
        · simp at h5
      · simp at h5
    · exfalso
      split at h6
      · split at h6
        · simp only [List.mem_singleton] at h6
          rw [h6] at hlab
          simp at hlab
        · simp at h6
      · simp at h6
  · intro hch
    refine ⟨annotate target_fields
      ⟨"Combined year+month headers", combinedHeaders headers, 35/100,
        "Merged year + month tokens into single period labels."⟩, ?_, rfl, rfl, rfl⟩
    unfold build_schema_candidates
    simp only
    apply List.mem_map.mpr
    refine ⟨_, ?_, rfl⟩
    apply List.mem_filter.mpr
    constructor
    · simp only [List.mem_append, hch, if_true]
      left; left; left; left; right
      simp
    · have hsc : ¬((35 : ℚ)/100 < 25/100) := by norm_num
      simp [hsc]
  
/-- Decimal value of a digit string. -/
def digitsToNat (l : List Char) : Nat :=
  l.foldl (fun n c => n * 10 + (c.toNat - 48)) 0

/-- The year condition as the claim words it: a 4-digit token in
[1900, 2100]. -/
def specYearInRange (p : String) : Bool :=
  isDigitStr p && (p.length == 4) &&
    decide (1900 ≤ digitsToNat p.data ∧ digitsToNat p.data ≤ 2100)

/-- The claim's trigger condition: some header contains an adjacent
(in-range year, month) token pair, in either order. -/
def specAdjacentPair (h : String) : Bool :=
  let parts := splitParts h
  (List.range (parts.length - 1)).any (fun i =>
    (specYearInRange (parts.getD i "") &&
      ((normalize_month (parts.getD (i + 1) "")).isSome : Bool)) ||
    (((normalize_month (parts.getD i "")).isSome : Bool) &&
      specYearInRange (parts.getD (i + 1) "")))

/-- C9 counterexample: the header `"9999 x jan"` has no adjacent
in-range year+month token pair, yet the code emits the combined
candidate (it checks neither the [1900, 2100] range nor adjacency). -/
theorem schema_candidates_counterexample :
    (¬ ∃ h ∈ ["9999 x jan"], specAdjacentPair h = true) ∧
      ∃ ac ∈ build_schema_candidates [] (fun _ => false) (fun _ => false)
          ["9999 x jan"] "generic" [],
        ac.label = "Combined year+month headers" ∧ ac.score = 35/100 := by
  constructor
  · decide
  · refine ⟨annotate []
      ⟨"Combined year+month headers", combinedHeaders ["9999 x jan"], 35/100,
        "Merged year + month tokens into single period labels."⟩, ?_, rfl, rfl⟩
    unfold build_schema_candidates
    simp only
    apply List.mem_map.mpr
    refine ⟨_, ?_, rfl⟩
    apply List.mem_filter.mpr
    constructor
    · have hch : combinedChanged ["9999 x jan"] = true := by decide
      simp only [List.mem_append, hch, if_true]
      left; left; left; left; right
      simp
    · have hsc : ¬((35 : ℚ)/100 < 25/100) := by norm_num
      simp [hsc]

/-! ## `auto_map_columns` (data-frame-tool-clean/src/core.py, lines 253-282)

`difflib.get_close_matches(header_lower, pool, n=1, cutoff=0.82)` is
embedded down to `SequenceMatcher` (no junk, no autojunk for these
short strings): `find_longest_match` picks the longest common
substring, ties broken towards the smallest start in the first
sequence then the second, and the matched total recurses on both
sides of the chosen block.  The recursion depth is bounded by the
total length, so `length a + length b + 1` fuel always suffices. -/

def commonPrefixLen : List Char → List Char → Nat
  | a :: as, b :: bs => if a = b then 1 + commonPrefixLen as bs else 0
  | _, _ => 0

/-- Start positions of maximal common-substring blocks: `a[i] = b[j]`
and the block cannot extend to the left. -/
def isBlockStart (a b : List Char) (i j : Nat) : Bool :=
  (a.getD i '*' == b.getD j '*') &&
    (i == 0 || j == 0 || !(a.getD (i - 1) '*' == b.getD (j - 1) '*'))

def candidateBlocks (a b : List Char) : List (Nat × Nat × Nat) :=
  (List.range a.length).flatMap (fun i =>
    (List.range b.length).filterMap (fun j =>
      if isBlockStart a b i j then
        some (i, j, commonPrefixLen (a.drop i) (b.drop j))
      else none))

/-- `SequenceMatcher.find_longest_match`: the longest block, earliest
in `a` then in `b` (the enumeration is `i`-major ascending and the
fold keeps the first maximum). -/
def findLongest (a b : List Char) : Option (Nat × Nat × Nat) :=
  (candidateBlocks a b).foldl
    (fun best c =>
      match best with
      | none => some c
      | some (bi, bj, bk) => if c.2.2 > bk then some c else some (bi, bj, bk))
    none

/-- Total size of `get_matching_blocks`, with fuel. -/
def matchedF : Nat → List Char → List Char → Nat
  | 0, _, _ => 0
  | Nat.succ fuel, a, b =>
    match findLongest a b with
    | none => 0
    | some (i, j, k) =>
      if k == 0 then 0
      else
        k + matchedF fuel (a.take i) (b.take j) +
          matchedF fuel (a.drop (i + k)) (b.drop (j + k))

def matchedTotal (a b : List Char) : Nat :=
  matchedF (a.length + b.length + 1) a b

/-- `difflib._calculate_ratio`. -/
def calcRatio (m t : Nat) : ℚ :=
  if t == 0 then 1 else (2 * m : ℚ) / (t : ℚ)

/-- `SequenceMatcher.ratio()` with `a = seq1`, `b = seq2`. -/
def smRatio (a b : List Char) : ℚ :=
  calcRatio (matchedTotal a b) (a.length + b.length)

/-- `SequenceMatcher.quick_ratio()`: multiset-intersection size. -/
def quickMatches : List Char → List Char → Nat
  | [], _ => 0
  | c :: as, bs => if c ∈ bs then 1 + quickMatches as (bs.erase c) else quickMatches as bs

def smQuickRatio (a b : List Char) : ℚ :=
  calcRatio (quickMatches a b) (a.length + b.length)

def smRealQuickRatio (a b : List Char) : ℚ :=
  calcRatio (min a.length b.length) (a.length + b.length)

/-- `difflib.get_close_matches(word, pool, n=1, cutoff=0.82)` is
non-empty: some pool entry `x` passes all three ratio gates against
`word` (with `seq1 = x`, `seq2 = word` exactly as `get_close_matches`
sets them). -/
def closeMatchExists (word : String) (pool : List String) : Bool :=
  pool.any (fun x =>
    decide ((82 : ℚ)/100 ≤ smRealQuickRatio x.data word.data) &&
    decide ((82 : ℚ)/100 ≤ smQuickRatio x.data word.data) &&
    decide ((82 : ℚ)/100 ≤ smRatio x.data word.data))

/-- The containment scan over `pool = [target_field] + synonyms`:
`candidate.lower()` non-empty and contained in the header. -/
def containsPoolMatch (header_lower : String) (pool : List String) : Bool :=
  pool.any (fun candidate =>
    (pyLower candidate ≠ "" : Bool) && pyIn (pyLower candidate) header_lower)

/-- The inner `for target_field, synonyms in target_schema.items()`
loop, carrying `best_match` exactly as the Python does: a containment
match overwrites `best_match` and `if best_match: break` fires after
the containment scan (so a pending fuzzy match from an earlier field
breaks the loop at the next unclaimed field unless that field
containment-matches); a fuzzy match sets `best_match` and the loop
continues. -/
def fieldLoopPy (header_lower : String) (used : List String) :
    Option String → List (String × List String) → Option String
  | best, [] => best
  | best, (target_field, synonyms) :: rest =>
    if used.contains target_field then fieldLoopPy header_lower used best rest
    else
      let pool := target_field :: synonyms
      let best2 := if containsPoolMatch header_lower pool then some target_field else best
      if strOptTruthy best2 then best2
      else
        let best3 := if closeMatchExists header_lower pool then some target_field else best2
        fieldLoopPy header_lower used best3 rest

/-- Python dict assignment `mapping[k] = v`: replace in place when the
key exists, else append. -/
def dictUpdate (m : List (String × String × Bool)) (k : String) (v : String × Bool) :
    List (String × String × Bool) :=
  if m.any (fun p => p.1 == k) then
    m.map (fun p => if p.1 == k then (k, v) else p)
  else m ++ [(k, v)]

/-- The header loop of `auto_map_columns`, additionally tagging each
entry with whether it was claimed through matching (`true`) or is a
`snake_case` fallback (`false`). -/
def autoMapDetailedGo (schema : List (String × List String)) :
    List String → List (String × String × Bool) → List String →
      List (String × String × Bool)
  | [], mapping, _ => mapping
  | header :: rest, mapping, used =>
    let header_lower := pyStrip (pyLower header)
    let best := fieldLoopPy header_lower used none schema
    if strOptTruthy best then
      autoMapDetailedGo schema rest
        (dictUpdate mapping header (best.getD "", true)) (best.getD "" :: used)
    else if mapping.any (fun p => p.1 == header_lower) then
      autoMapDetailedGo schema rest mapping used
    else
      autoMapDetailedGo schema rest
        (dictUpdate mapping header (snake_case header, false)) used

def autoMapDetailed (file_headers : List String)
    (target_schema : List (String × List String)) : List (String × String × Bool) :=
  autoMapDetailedGo target_schema file_headers [] []

/-- `auto_map_columns` from data-frame-tool-clean/src/core.py. -/
def auto_map_columns (file_headers : List String)
    (target_schema : List (String × List String)) : List (String × String) :=
  (autoMapDetailed file_headers target_schema).map (fun p => (p.1, p.2.1))

/-! ### The specification-side mapping (C4, amended)

Written from the claim's words, amended where the code forces it: the
first unclaimed field with a (non-empty, case-insensitive) containment
match wins; otherwise the first unclaimed field with a fuzzy match
≥ 0.82 wins, except that the immediately following unclaimed field
supersedes it when that field containment-matches; a header matching
nothing maps to its snake_case self-name. -/
/-- A pending fuzzy winner `f` survives unless the next unclaimed field
containment-matches. -/
def specCarry (hl f : String) : List (String × List String) → Option String
  | [] => some f
  | (f2, syns2) :: _ => if containsPoolMatch hl (f2 :: syns2) then some f2 else some f

def specPickGo (hl : String) : List (String × List String) → Option String
  | [] => none
  | (f, syns) :: rest =>
    if containsPoolMatch hl (f :: syns) then some f
    else if closeMatchExists hl (f :: syns) then specCarry hl f rest
    else specPickGo hl rest

def autoMapSpecGo (schema : List (String × List String)) :
    List String → List (String × String) → List String → List (String × String)
  | [], mapping, _ => mapping
  | header :: rest, mapping, used =>
    let hl := pyStrip (pyLower header)
    let fields := schema.filter (fun p => !(used.contains p.1))
    match specPickGo hl fields with
    | some f => autoMapSpecGo schema rest (mapping ++ [(header, f)]) (f :: used)
    | none => autoMapSpecGo schema rest (mapping ++ [(header, snake_case header)]) used

def autoMapSpec (file_headers : List String)
    (target_schema : List (String × List String)) : List (String × String) :=
  autoMapSpecGo target_schema file_headers [] []

theorem dictUpdate_nil (k : String) (v : String × Bool) : dictUpdate [] k v = [(k, v)] := rfl

theorem dictUpdate_fresh (m : List (String × String × Bool)) (k : String) (v : String × Bool)
    (h : ∀ p ∈ m, p.1 ≠ k) : dictUpdate m k v = m ++ [(k, v)] := by
  have hany : m.any (fun p => p.1 == k) = false := by
    simp only [List.any_eq_false]
    intro p hp
    simpa using h p hp
  simp only [dictUpdate, hany]
  simp

theorem specPickGo_mem (hl : String) :
    ∀ (fields : List (String × List String)) (f : String),
    specPickGo hl fields = some f → ∃ s, (f, s) ∈ fields := by
  intro fields
  induction fields with
  | nil => intro f h; simp [specPickGo] at h
  | cons p rest ih =>
    intro f h
    obtain ⟨g, syns⟩ := p
    simp only [specPickGo] at h
    by_cases hc : containsPoolMatch hl (g :: syns) = true
    · rw [if_pos hc] at h
      obtain rfl : g = f := by simpa using h
      exact ⟨syns, List.mem_cons_self _ _⟩
    · rw [if_neg hc] at h
      by_cases hcl : closeMatchExists hl (g :: syns) = true
      · rw [if_pos hcl] at h
        cases hrest : rest with
        | nil =>
          rw [hrest] at h
          obtain rfl : g = f := by simpa [specCarry] using h
          exact ⟨syns, List.mem_cons_self _ _⟩
        | cons q t =>
          rw [hrest] at h
          obtain ⟨g2, s2⟩ := q
          simp only [specCarry] at h
          by_cases hc2 : containsPoolMatch hl (g2 :: s2) = true
          · rw [if_pos hc2] at h
            obtain rfl : g2 = f := by simpa using h
            exact ⟨s2, by simp [hrest]⟩
          · rw [if_neg hc2] at h
            obtain rfl : g = f := by simpa using h
            exact ⟨syns, List.mem_cons_self _ _⟩
      · rw [if_neg hcl] at h
        obtain ⟨s, hs⟩ := ih f h
        exact ⟨s, List.mem_cons_of_mem _ hs⟩

theorem fieldLoopPy_carry (hl : String) (used : List String) (f : String) (hf : f ≠ "") :
    ∀ (schema : List (String × List String)), (∀ p ∈ schema, p.1 ≠ "") →
    fieldLoopPy hl used (some f) schema =
      specCarry hl f (schema.filter (fun p => !(used.contains p.1))) := by
  intro schema
  induction schema with
  | nil => intro _; rfl
  | cons p rest ih =>
    intro hfe
    obtain ⟨g, syns⟩ := p
    have hfe' : ∀ p ∈ rest, p.1 ≠ "" := fun p hp => hfe p (List.mem_cons_of_mem _ hp)
    cases hu : used.contains g with
    | true =>
      simp only [fieldLoopPy, hu, if_true, List.filter_cons, Bool.not_true]
      simpa using ih hfe'
    | false =>
      simp only [fieldLoopPy, hu, List.filter_cons, Bool.not_false, if_true, if_false,
        Bool.false_eq_true]
      by_cases hc : containsPoolMatch hl (g :: syns) = true
      · have hg : g ≠ "" := hfe (g, syns) (List.mem_cons_self _ _)
        simp only [hc, if_true, strOptTruthy, decide_eq_true hg, if_true, specCarry]
      · simp only [hc, if_false, Bool.false_eq_true, strOptTruthy, decide_eq_true hf,
          if_true, specCarry]

theorem fieldLoopPy_none_eq_spec (hl : String) (used : List String) :
    ∀ (schema : List (String × List String)), (∀ p ∈ schema, p.1 ≠ "") →
    fieldLoopPy hl used none schema =
      specPickGo hl (schema.filter (fun p => !(used.contains p.1))) := by
  intro schema
  induction schema with
  | nil => intro _; rfl
  | cons p rest ih =>
    intro hfe
    obtain ⟨g, syns⟩ := p
    have hfe' : ∀ p ∈ rest, p.1 ≠ "" := fun p hp => hfe p (List.mem_cons_of_mem _ hp)
    have hg : g ≠ "" := hfe (g, syns) (List.mem_cons_self _ _)
    cases hu : used.contains g with
    | true =>
      simp only [fieldLoopPy, hu, if_true, List.filter_cons, Bool.not_true]
      simpa using ih hfe'
    | false =>
      simp only [fieldLoopPy, hu, List.filter_cons, Bool.not_false, if_true, if_false,
        Bool.false_eq_true, specPickGo]
      by_cases hc : containsPoolMatch hl (g :: syns) = true
      · simp only [hc, if_true, strOptTruthy, decide_eq_true hg, if_true]
      · simp only [hc, if_false, Bool.false_eq_true, strOptTruthy, if_false]
        by_cases hcl : closeMatchExists hl (g :: syns) = true
        · simp only [hcl, if_true]
          exact fieldLoopPy_carry hl used g hg rest hfe'
        · simp only [hcl, if_false, Bool.false_eq_true]
          exact ih hfe'

theorem fieldLoopPy_unclaimed (hl : String) (used : List String) :
    ∀ (schema : List (String × List String)) (best : Option String) (f : String),
    (∀ g, best = some g → used.contains g = false) →
    fieldLoopPy hl used best schema = some f → used.contains f = false := by
  intro schema
  induction schema with
  | nil =>
    intro best f hb h
    exact hb f h
  | cons p rest ih =>
    intro best f hb h
    obtain ⟨g, syns⟩ := p
    cases hu : used.contains g with
    | true =>
      rw [fieldLoopPy, hu] at h
      exact ih best f hb (by simpa using h)
    | false =>
      simp only [fieldLoopPy, hu, Bool.false_eq_true, if_false] at h
      set best2 := if containsPoolMatch hl (g :: syns) = true then some g else best with hb2
      have hbest2 : ∀ g', best2 = some g' → used.contains g' = false := by
        intro g' hg'
        rw [hb2] at hg'
        by_cases hc : containsPoolMatch hl (g :: syns) = true
        · rw [if_pos hc] at hg'
          obtain rfl : g = g' := by simpa using hg'
          exact hu
        · rw [if_neg hc] at hg'
          exact hb g' hg'
      by_cases ht : strOptTruthy best2 = true
      · rw [if_pos ht] at h
        exact hbest2 f h
      · rw [if_neg ht] at h
        refine ih _ f ?_ h
        intro g' hg'
        by_cases hcl : closeMatchExists hl (g :: syns) = true
        · rw [if_pos hcl] at hg'
          obtain rfl : g = g' := by simpa using hg'
          exact hu
        · rw [if_neg hcl] at hg'
          exact hbest2 g' hg'

theorem autoMapSpecGo_append (schema : List (String × List String)) :
    ∀ (hs : List String) (m : List (String × String)) (used : List String),
    autoMapSpecGo schema hs m used = m ++ autoMapSpecGo schema hs [] used := by
  intro hs
  induction hs with
  | nil => intro m used; simp [autoMapSpecGo]
  | cons header rest ih =>
    intro m used
    simp only [autoMapSpecGo]
    split
    · rw [ih, ih ([] ++ [(header, _)])]
      simp
    · rw [ih, ih ([] ++ [(header, snake_case header)])]
      simp

theorem autoMapDetailedGo_append (schema : List (String × List String)) :
    ∀ (hs : List String) (mapping : List (String × String × Bool)) (used : List String),
    (∀ h ∈ hs, ∀ p ∈ mapping, p.1 ≠ h ∧ p.1 ≠ pyStrip (pyLower h)) →
    hs.Pairwise (fun x y => x ≠ y ∧ pyStrip (pyLower y) ≠ x) →
    autoMapDetailedGo schema hs mapping used =
      mapping ++ autoMapDetailedGo schema hs [] used := by
  intro hs
  induction hs with
  | nil => intro mapping used _ _; simp [autoMapDetailedGo]
  | cons header rest ih =>
    intro mapping used hfresh hpw
    have hhd := (List.pairwise_cons.mp hpw).1
    have hpw' := (List.pairwise_cons.mp hpw).2
    have hfreshm : ∀ p ∈ mapping, p.1 ≠ header ∧ p.1 ≠ pyStrip (pyLower header) :=
      fun p hp => hfresh header (List.mem_cons_self _ _) p hp
    have hrest_map : ∀ h ∈ rest, ∀ p ∈ mapping, p.1 ≠ h ∧ p.1 ≠ pyStrip (pyLower h) :=
      fun h hh p hp => hfresh h (List.mem_cons_of_mem _ hh) p hp
    have hcons : ∀ (v : String × Bool) (m0 : List (String × String × Bool)),
        (∀ h ∈ rest, ∀ p ∈ m0, p.1 ≠ h ∧ p.1 ≠ pyStrip (pyLower h)) →
        ∀ h ∈ rest, ∀ p ∈ m0 ++ [(header, v)], p.1 ≠ h ∧ p.1 ≠ pyStrip (pyLower h) := by
      intro v m0 hm0 h hh p hp
      rcases List.mem_append.mp hp with hp | hp
      · exact hm0 h hh p hp
      · obtain rfl : p = (header, v) := by simpa using hp
        exact ⟨(hhd h hh).1, fun e => (hhd h hh).2 e.symm⟩
    have hsing : ∀ (v : String × Bool), ∀ h ∈ rest, ∀ p ∈ [(header, v)],
        p.1 ≠ h ∧ p.1 ≠ pyStrip (pyLower h) := by
      intro v h hh p hp
      obtain rfl : p = (header, v) := by simpa using hp
      exact ⟨(hhd h hh).1, fun e => (hhd h hh).2 e.symm⟩
    simp only [autoMapDetailedGo]
    by_cases ht : strOptTruthy (fieldLoopPy (pyStrip (pyLower header)) used none schema) = true
    · rw [if_pos ht, if_pos ht]
      rw [dictUpdate_fresh mapping header _ (fun p hp => (hfreshm p hp).1), dictUpdate_nil]
      rw [ih _ _ (hcons _ mapping hrest_map) hpw', ih _ _ (hsing _) hpw']
      simp
    · rw [if_neg ht, if_neg ht]
      have hany : mapping.any (fun p => p.1 == pyStrip (pyLower header)) = false := by
        simp only [List.any_eq_false]
        intro p hp
        simpa using (hfreshm p hp).2
      simp only [hany, Bool.false_eq_true, if_false, List.any_nil]
      rw [dictUpdate_fresh mapping header _ (fun p hp => (hfreshm p hp).1), dictUpdate_nil]
      rw [ih _ _ (hcons _ mapping hrest_map) hpw', ih _ _ (hsing _) hpw']
      simp

theorem autoMapDetailedGo_spec (schema : List (String × List String))
    (hfe : ∀ p ∈ schema, p.1 ≠ "") :
    ∀ (hs : List String) (used : List String),
    hs.Pairwise (fun x y => x ≠ y ∧ pyStrip (pyLower y) ≠ x) →
    (autoMapDetailedGo schema hs [] used).map (fun p => (p.1, p.2.1)) =
      autoMapSpecGo schema hs [] used := by
  intro hs
  induction hs with
  | nil => intro used _; rfl
  | cons header rest ih =>
    intro used hpw
    have hhd := (List.pairwise_cons.mp hpw).1
    have hpw' := (List.pairwise_cons.mp hpw).2
    have hpick := fieldLoopPy_none_eq_spec (pyStrip (pyLower header)) used schema hfe
    have hsingle : ∀ (v : String × Bool), ∀ h ∈ rest,
        ∀ p ∈ [(header, v)], p.1 ≠ h ∧ p.1 ≠ pyStrip (pyLower h) := by
      intro v h hh p hp
      obtain rfl : p = (header, v) := by simpa using hp
      exact ⟨(hhd h hh).1, fun e => (hhd h hh).2 e.symm⟩
    simp only [autoMapDetailedGo, autoMapSpecGo]
    rw [hpick]
    cases hsp : specPickGo (pyStrip (pyLower header))
        (schema.filter fun p => !(used.contains p.1)) with
    | some f =>
      obtain ⟨s, hsmem⟩ := specPickGo_mem _ _ f hsp
      have hf : f ≠ "" := hfe (f, s) (List.mem_of_mem_filter hsmem)
      have ht : strOptTruthy (some f) = true := by simp [strOptTruthy, hf]
      rw [if_pos ht]
      simp only [Option.getD_some, dictUpdate_nil]
      rw [autoMapDetailedGo_append schema rest [(header, f, true)] (f :: used)
        (hsingle (f, true)) hpw']
      rw [List.map_append, ih (f :: used) hpw']
      rw [autoMapSpecGo_append schema rest ([] ++ [(header, f)]) (f :: used)]
      simp
    | none =>
      have ht : ¬ (strOptTruthy (none : Option String) = true) := by
        simp [strOptTruthy]
      rw [if_neg ht]
      simp only [List.any_nil, Bool.false_eq_true, if_false, dictUpdate_nil]
      rw [autoMapDetailedGo_append schema rest [(header, snake_case header, false)] used
        (hsingle (snake_case header, false)) hpw']
      rw [List.map_append, ih used hpw']
      rw [autoMapSpecGo_append schema rest ([] ++ [(header, snake_case header)]) used]
      simp

theorem autoMapDetailedGo_nodup (schema : List (String × List String)) :
    ∀ (hs : List String) (mapping : List (String × String × Bool)) (used : List String),
    (∀ h ∈ hs, ∀ p ∈ mapping, p.1 ≠ h) →
    hs.Pairwise (fun x y => x ≠ y) →
    ((mapping.filter (fun p => p.2.2)).map (fun p => p.2.1)).Nodup →
    (∀ p ∈ mapping, p.2.2 = true → used.contains p.2.1 = true) →
    (((autoMapDetailedGo schema hs mapping used).filter (fun p => p.2.2)).map
        (fun p => p.2.1)).Nodup := by
  intro hs
  induction hs with
  | nil => intro mapping used _ _ hnd _; simpa [autoMapDetailedGo] using hnd
  | cons header rest ih =>
    intro mapping used hfresh hpw hnd hsub
    have hhd := (List.pairwise_cons.mp hpw).1
    have hpw' := (List.pairwise_cons.mp hpw).2
    have hfreshm : ∀ p ∈ mapping, p.1 ≠ header :=
      fun p hp => hfresh header (List.mem_cons_self _ _) p hp
    have hrest_map : ∀ h ∈ rest, ∀ p ∈ mapping, p.1 ≠ h :=
      fun h hh p hp => hfresh h (List.mem_cons_of_mem _ hh) p hp
    simp only [autoMapDetailedGo]
    by_cases ht : strOptTruthy (fieldLoopPy (pyStrip (pyLower header)) used none schema) = true
    · rw [if_pos ht]
      cases hb : fieldLoopPy (pyStrip (pyLower header)) used none schema with
      | none => rw [hb] at ht; simp [strOptTruthy] at ht
      | some f =>
        simp only [Option.getD_some]
        have hfu : used.contains f = false :=
          fieldLoopPy_unclaimed (pyStrip (pyLower header)) used schema none f
            (fun g hg => by cases hg) hb
        rw [dictUpdate_fresh mapping header _ hfreshm]
        refine ih _ _ ?_ hpw' ?_ ?_
        · intro h hh p hp
          rcases List.mem_append.mp hp with hp | hp
          · exact hrest_map h hh p hp
          · obtain rfl : p = (header, f, true) := by simpa using hp
            exact hhd h hh
        · simp only [List.filter_append, List.map_append]
          rw [List.nodup_append]
          refine ⟨hnd, by simp, ?_⟩
          intro x hx hx2
          have hxf : x = f := by simpa using hx2
          subst hxf
          obtain ⟨p, hpmem, hpx⟩ := List.mem_map.mp hx
          have hpm := List.mem_filter.mp hpmem
          have hc := hsub p hpm.1 (by simpa using hpm.2)
          rw [hpx] at hc
          rw [hc] at hfu
          exact absurd hfu (by decide)
        · intro p hp hpt
          rcases List.mem_append.mp hp with hp | hp
          · have hc := hsub p hp hpt
            have hmem : p.2.1 ∈ used := by simpa using hc
            simp [List.contains_cons, hmem]
          · obtain rfl : p = (header, f, true) := by simpa using hp
            simp [List.contains_cons]
    · rw [if_neg ht]
      by_cases ha : mapping.any (fun p => p.1 == pyStrip (pyLower header)) = true
      · rw [if_pos ha]
        exact ih _ _ hrest_map hpw' hnd hsub
      · rw [if_neg ha]
        rw [dictUpdate_fresh mapping header _ hfreshm]
        refine ih _ _ ?_ hpw' ?_ ?_
        · intro h hh p hp
          rcases List.mem_append.mp hp with hp | hp
          · exact hrest_map h hh p hp
          · obtain rfl : p = (header, snake_case header, false) := by simpa using hp
            exact hhd h hh
        · simp only [List.filter_append, List.map_append]
          simpa using hnd
        · intro p hp hpt
          rcases List.mem_append.mp hp with hp | hp
          · exact hsub p hp hpt
          · obtain rfl : p = (header, snake_case header, false) := by simpa using hp
            simp at hpt

/-- **C4** counterexample: the claim says a header matching nothing maps to
its snake_case self-name, but the `elif header_lower not in mapping` guard
skips a header whose lowered-stripped form collides with an existing key:
with no target schema, `"xyz"` maps to `"xyz"`, and then `"XYZ"` (lowering
to the existing key `"xyz"`) receives no entry at all. -/
theorem auto_map_counterexample :
    ¬ (List.lookup "XYZ" (auto_map_columns ["xyz", "XYZ"] []) =
        some (snake_case "XYZ")) := by decide

/-- **C4** (amended): for non-empty field names and headers that are pairwise
distinct and never lower-strip onto a later header, `auto_map_columns` agrees
with the claim's per-header first-match rule amended in two ways: a fuzzy
(≥ 0.82) winner at one unclaimed field is superseded by the *immediately
following* unclaimed field exactly when that field containment-matches
(`specCarry`), because the Python `if best_match: break` only fires after the
next field's containment scan; and a no-match header maps to its snake_case
self-name (appended in order). -/
theorem auto_map_columns_spec (headers : List String) (schema : List (String × List String))
    (hfe : ∀ p ∈ schema, p.1 ≠ "")
    (hdr : headers.Pairwise (fun x y => x ≠ y ∧ pyStrip (pyLower y) ≠ x)) :
    auto_map_columns headers schema = autoMapSpec headers schema := by
  unfold auto_map_columns autoMapDetailed autoMapSpec
  exact autoMapDetailedGo_spec schema hfe headers [] hdr

/-- **C4** witness: the amended equivalence applied at a concrete input in
which `"sku code"` containment-matches the field `"sku"` and `"other!"`
matches nothing. -/
theorem auto_map_columns_spec_witness :
    ((∀ p ∈ ([("sku", [])] : List (String × List String)), p.1 ≠ "") ∧
      (["sku code", "other!"] : List String).Pairwise
        (fun x y => x ≠ y ∧ pyStrip (pyLower y) ≠ x)) ∧
    auto_map_columns ["sku code", "other!"] [("sku", [])] =
      autoMapSpec ["sku code", "other!"] [("sku", [])] :=
  ⟨⟨by decide, by decide⟩, auto_map_columns_spec _ _ (by decide) (by decide)⟩

/-- **C5** counterexample: `auto_map_columns` CAN assign two distinct source
headers to the same canonical field: with schema `{f: []}` and headers
`["f one", "f"]`, the header `"f one"` claims the field `"f"`, and the header
`"f"` then falls back to its snake_case self-name, which is the same string
`"f"` — so both headers map to the canonical field name `"f"`. -/
theorem auto_map_unique_counterexample :
    ¬ (∀ (headers : List String) (schema : List (String × List String))
        (h1 h2 v : String),
        List.lookup h1 (auto_map_columns headers schema) = some v →
        List.lookup h2 (auto_map_columns headers schema) = some v →
        v ∈ schema.map Prod.fst → h1 = h2) := by
  intro hcl
  have := hcl ["f one", "f"] [("f", [])] "f one" "f" "f"
    (by decide) (by decide) (by decide)
  exact absurd this (by decide)

/-- **C5** (amended): among the entries that `auto_map_columns` creates by
*claiming* a target field (match branch, as opposed to snake_case fallback),
no canonical field is ever assigned to two distinct headers: the claimed
values in `autoMapDetailed` (whose projection is exactly `auto_map_columns`)
are pairwise distinct, for pairwise-distinct headers. -/
theorem auto_map_no_double_claim (headers : List String)
    (schema : List (String × List String))
    (hnd : headers.Pairwise (fun x y => x ≠ y)) :
    auto_map_columns headers schema
        = (autoMapDetailed headers schema).map (fun p => (p.1, p.2.1)) ∧
      (((autoMapDetailed headers schema).filter (fun p => p.2.2)).map
          (fun p => p.2.1)).Nodup := by
  refine ⟨rfl, ?_⟩
  exact autoMapDetailedGo_nodup schema headers [] [] (by simp) hnd (by simp) (by simp)

/-- **C5** witness: the no-double-claim property applied at the
counterexample's input, where only `"f one"` claims a field. -/
theorem auto_map_no_double_claim_witness :
    ((["f one", "f"] : List String).Pairwise (fun x y => x ≠ y)) ∧
    (auto_map_columns ["f one", "f"] [("f", [])]
        = (autoMapDetailed ["f one", "f"] [("f", [])]).map (fun p => (p.1, p.2.1)) ∧
      (((autoMapDetailed ["f one", "f"] [("f", [])]).filter (fun p => p.2.2)).map
          (fun p => p.2.1)).Nodup) :=
  ⟨by decide, auto_map_no_double_claim _ _ (by decide)⟩

end ETL










